import Mathlib

/-!
Verification of the agentic-video-rag pipeline engine.

This file shallowly embeds the core of the repository
(`src/agentic_video_rag/`): the orchestration contract and runtime, the
deterministic stage adapters (trigger router, query decomposer, ReID
resolver, temporal grounding, synthesizer) and the seven-stage pipeline
engine, and proves the specification claims about them.

Embedding conventions:
* Python `int` becomes `Int` (timestamps, travel times) or `Nat` (counts);
  Python `float` scores and confidences become `ℚ` with exact literals
  (`0.87` becomes `87/100`).
* Python lists/tuples become `List`; Python `dict` (insertion ordered)
  becomes an association list threaded explicitly.
* The SHA-1/SHA-256 based helpers `stable_id` and `deterministic_vector`
  are modelled by computable stand-ins: `stable_id` concatenates its parts
  (the digest is only used as an opaque deterministic identifier) and the
  pseudo-embedding vectors together with float `cosine_similarity` are
  supplied as an abstract `Ports` record, mirroring the model-port
  boundary of the system.  No claim below depends on the numeric value of
  a digest or a similarity.
* Exceptions (`raise ValueError`) become `Except String`.

The arithmetic on `ℚ` must evaluate on concrete inputs (witnesses and
counterexamples are checked by `decide`), so the upstream `@[irreducible]`
markers on the `Rat` operations are relaxed to `semireducible`; this only
changes unfolding behaviour during elaboration, not any definition.
-/

set_option allowUnsafeReducibility true
attribute [semireducible] Rat.add Rat.mul Rat.div Rat.inv Rat.sub Rat.ofScientific

/-! ### Generic list helpers (insertion-based stable sorts, dedup) -/

/-- Stable insertion into a list sorted ascending by the strict order `lt`:
the new element is placed before the first element it is not greater than,
so elements with equal keys keep their original relative order. -/
def insertSorted (lt : α → α → Bool) (x : α) : List α → List α
  | [] => [x]
  | y :: ys => if lt y x then y :: insertSorted lt x ys else x :: y :: ys

/-- Stable ascending sort by the strict order `lt` (models Python's stable
`sorted`). -/
def sortListBy (lt : α → α → Bool) : List α → List α
  | [] => []
  | x :: xs => insertSorted lt x (sortListBy lt xs)

/-- Insert into a strictly ascending list, dropping duplicates (used to
model Python's `sorted(set(xs))`). -/
def insertNodupBy (lt : α → α → Bool) (x : α) : List α → List α
  | [] => [x]
  | y :: ys =>
    if lt x y then x :: y :: ys
    else if lt y x then y :: insertNodupBy lt x ys
    else y :: ys

/-- `sorted(set(xs))` for a decidable strict total order. -/
def sortedDedupBy (lt : α → α → Bool) (xs : List α) : List α :=
  xs.foldr (insertNodupBy lt) []

/-- First-occurrence deduplication, preserving order (models
`dict.fromkeys` / set-accumulation in encounter order). -/
def distinctList [DecidableEq α] (xs : List α) : List α :=
  xs.foldl (fun acc x => if acc.contains x then acc else acc ++ [x]) []

/-- Strict order on `Int` as a `Bool`. -/
def intLt (a b : Int) : Bool := a < b

/-! Structural character-list implementations of the string operations the
source uses (`str.lower`, `str.replace`, `str.split`, `str.strip`,
`str.startswith`, string ordering).  They mirror the Python semantics on
the ASCII data of this system. -/

/-- Strict lexicographic order on character lists (by code point). -/
def charListLt : List Char → List Char → Bool
  | [], [] => false
  | [], _ :: _ => true
  | _ :: _, [] => false
  | a :: as, b :: bs => if a < b then true else if b < a then false else charListLt as bs

/-- Strict lexicographic order on `String` as a `Bool` (Python string
comparison, by code point). -/
def strLt (a b : String) : Bool := charListLt a.data b.data

/-- `str.lower` (ASCII). -/
def strToLower (s : String) : String := String.mk (s.data.map Char.toLower)

/-- `str.startswith`. -/
def strStartsWith (s pre : String) : Bool := pre.data.isPrefixOf s.data

/-- ASCII whitespace (the whitespace appearing in this system's data). -/
def isSpaceChar (c : Char) : Bool := c = ' ' || c = '\t' || c = '\n' || c = '\r'

/-- `str.strip()`. -/
def strTrim (s : String) : String :=
  String.mk ((s.data.dropWhile isSpaceChar).reverse.dropWhile isSpaceChar).reverse

/-- Worker for `str.replace`: substitute every non-overlapping occurrence
of `pat`, scanning left to right.  The fuel argument (initialized to the
input length, which bounds the number of steps) keeps the recursion
structural. -/
def replaceGo (pat rep : List Char) : Nat → List Char → List Char
  | _, [] => []
  | 0, l => l
  | fuel + 1, c :: rest =>
    if pat.isPrefixOf (c :: rest) then
      rep ++ replaceGo pat rep fuel (rest.drop (pat.length - 1))
    else c :: replaceGo pat rep fuel rest

/-- `str.replace` for a non-empty pattern. -/
def strReplace (s pat rep : String) : String :=
  String.mk (replaceGo pat.data rep.data s.data.length s.data)

/-- Worker for `str.split(sep)`: emit the accumulated piece at every
non-overlapping separator occurrence (fueled, like `replaceGo`). -/
def splitOnGo (sep : List Char) : Nat → List Char → List Char → List (List Char)
  | _, [], cur => [cur.reverse]
  | 0, l, cur => [(cur.reverse ++ l)]
  | fuel + 1, c :: rest, cur =>
    if sep ≠ [] ∧ sep.isPrefixOf (c :: rest) then
      cur.reverse :: splitOnGo sep fuel (rest.drop (sep.length - 1)) []
    else splitOnGo sep fuel rest (c :: cur)

/-- `str.split(sep)` for a non-empty separator. -/
def strSplitOn (s sep : String) : List String :=
  if sep = "" then [s] else (splitOnGo sep.data s.data.length s.data []).map String.mk

/-- `sorted(set(xs))` for integer timestamps. -/
def sortedDedupInt (xs : List Int) : List Int := sortedDedupBy intLt xs

/-- `sorted(set(xs))` for strings (labels, failure flags). -/
def sortedDedupStr (xs : List String) : List String := sortedDedupBy strLt xs

/-! ### utils.py -/

/-- `utils.mean`: arithmetic mean with empty-list protection. -/
def listMean (values : List ℚ) : ℚ :=
  if values = [] then 0 else values.sum / values.length

/-- Python's `round(x, 3)` as used on rational stand-ins for float scores:
round to the nearest multiple of `1/1000`.  (Ties never arise at the
concrete inputs examined below.) -/
def round3 (q : ℚ) : ℚ := (round (q * 1000) : ℤ) / 1000

/-- Is `c` matched by the token regex `[a-z0-9_]+` of `utils.tokenize`? -/
def isTokChar (c : Char) : Bool :=
  ('a' ≤ c && c ≤ 'z') || ('0' ≤ c && c ≤ '9') || c = '_'

/-- Character-level worker for `tokenize`: split into maximal runs of
token characters.  `cur` holds the current run, reversed. -/
def tokenizeGo : List Char → List Char → List String
  | [], cur => if cur = [] then [] else [String.mk cur.reverse]
  | c :: rest, cur =>
    if isTokChar c then tokenizeGo rest (c :: cur)
    else if cur = [] then tokenizeGo rest []
    else String.mk cur.reverse :: tokenizeGo rest []

/-- `utils.tokenize`: lowercase, map `_` and `-` to spaces, then take the
maximal `[a-z0-9_]+` runs. -/
def tokenize (text : String) : List String :=
  tokenizeGo (strReplace (strReplace (strToLower text) "_" " ") "-" " ").data []

/-- `utils.stable_id`, with the SHA-1 digest of the joined parts modelled
by the joined parts themselves (the id is only ever used as an opaque
deterministic identifier). -/
def stable_id (pre : String) (parts : List String) : String :=
  pre ++ "_" ++ String.intercalate "|" parts

/-- `utils.overlap_score`: `|query ∩ semantic| / |query|` over token sets,
`0` for an empty query. -/
def overlap_score (queryTokens semanticTokens : List String) : ℚ :=
  let q := distinctList queryTokens
  if q = [] then 0
  else ((q.filter (fun t => (distinctList semanticTokens).contains t)).length : ℚ) / q.length

/-- Slice `values[s:e]` of a Python list (with clamping semantics). -/
def listSlice (values : List ℚ) (s e : Nat) : List ℚ :=
  (values.drop s).take (e - s)

/-- `utils.smooth_curve`: centered moving average; a window of size `≤ 1`
or a series of length `≤ 1` is returned unchanged. -/
def smooth_curve (values : List ℚ) (window : Int) : List ℚ :=
  if window ≤ 1 ∨ values.length ≤ 1 then values
  else
    let halfWindow : Nat := max 1 ((window / 2).toNat)
    (List.range values.length).map fun idx =>
      listMean (listSlice values (idx - halfWindow) (min values.length (idx + halfWindow + 1)))

/-- Python's substring test `needle in hay` on strings. -/
def strContainsSub (hay needle : String) : Bool :=
  subSearch needle.data hay.data
where
  subSearch (needle : List Char) : List Char → Bool
    | [] => needle.isEmpty
    | c :: rest => needle.isPrefixOf (c :: rest) || subSearch needle rest

/-! ### orchestrator_contract.py -/

/-- The seven stage identifiers (`StageId` literal type). -/
inductive StageId
  | stage_1 | stage_2 | stage_3 | stage_4 | stage_5 | stage_6 | stage_7
deriving DecidableEq, Repr, Fintype

/-- `TRANSITION_GRAPH`: the static legal-transition table. -/
def TRANSITION_GRAPH : StageId → List StageId
  | .stage_1 => [.stage_2]
  | .stage_2 => [.stage_2, .stage_3]
  | .stage_3 => [.stage_3, .stage_4]
  | .stage_4 => [.stage_4, .stage_5]
  | .stage_5 => [.stage_5, .stage_6]
  | .stage_6 => [.stage_6, .stage_7]
  | .stage_7 => []

/-- `OrchestratorContract.can_transition`. -/
def can_transition (currentStage nextStage : StageId) : Bool :=
  (TRANSITION_GRAPH currentStage).contains nextStage

/-- Printable stage name, used in runtime error messages. -/
def stageName : StageId → String
  | .stage_1 => "stage_1"
  | .stage_2 => "stage_2"
  | .stage_3 => "stage_3"
  | .stage_4 => "stage_4"
  | .stage_5 => "stage_5"
  | .stage_6 => "stage_6"
  | .stage_7 => "stage_7"

/-! ### orchestrator_runtime.py -/

/-- `TransitionEvent`: one recorded stage transition. -/
structure TransitionEvent where
  from_stage : StageId
  to_stage : StageId
  reason : String
deriving DecidableEq, Repr

/-- `OrchestrationRuntime.transition`: apply a transition against the
contract.  The first component is the returned stage or the raised error;
the second is the events log after the call (unchanged when the call
raises, since the Python code raises before appending). -/
def OrchestrationRuntime.transition (events : List TransitionEvent)
    (currentStage nextStage : StageId) (reason : String) :
    Except String StageId × List TransitionEvent :=
  if can_transition currentStage nextStage then
    (.ok nextStage, events ++ [⟨currentStage, nextStage, reason⟩])
  else
    (.error ("invalid transition " ++ stageName currentStage ++ " -> " ++ stageName nextStage),
      events)

/-! ### types.py — data model -/

/-- `RouteId` literal type. -/
inductive RouteId
  | meta_sync | sig_ex_adaptive | cv_state | bg_motion_trigger
deriving DecidableEq, Repr

/-- String form of a route id (interpolated into window ids). -/
def routeStr : RouteId → String
  | .meta_sync => "meta_sync"
  | .sig_ex_adaptive => "sig_ex_adaptive"
  | .cv_state => "cv_state"
  | .bg_motion_trigger => "bg_motion_trigger"

/-- `EntityType` literal type. -/
inductive EntityType
  | object | person
deriving DecidableEq, Repr

/-- String form of an entity type (interpolated into track ids). -/
def entityTypeStr : EntityType → String
  | .object => "object"
  | .person => "person"

/-- `FrameObservation`. -/
structure FrameObservation where
  timestamp : Int
  objects : List String
  actions : List String
  background_motion : ℚ
deriving DecidableEq, Repr

/-- One precomputed window from clip metadata (`{"t_start": ..,
"t_end": ..}` entries of the `active_windows` metadata key, with the
`int(...)` defaults already applied). -/
structure MetaWindow where
  t_start : Int
  t_end : Int
deriving DecidableEq, Repr

/-- The recognized keys of the free-form clip metadata dict:
`has_motion_vectors` (absent modelled as `false`) and `active_windows`
(absent modelled as `none`). -/
structure ClipMetadata where
  has_motion_vectors : Bool
  active_windows : Option (List MetaWindow)
deriving DecidableEq, Repr

/-- `Clip`.  `camera_type` is the literal `"static" | "moving"` and
`location` the literal `"interior" | "exterior"`, kept as strings. -/
structure Clip where
  clip_id : String
  camera_id : String
  camera_type : String
  location : String
  duration_seconds : Int
  frames : List FrameObservation
  metadata : ClipMetadata
deriving DecidableEq, Repr

/-- `QueryRequest`; the camera topology dict becomes an association
list. -/
structure QueryRequest where
  query_id : String
  query_text : String
  clips : List Clip
  camera_topology : List (String × List String)
deriving DecidableEq, Repr

/-- `ActiveWindow` (stage 1 output). -/
structure ActiveWindow where
  window_id : String
  clip_id : String
  camera_id : String
  route_id : RouteId
  t_start : Int
  t_end : Int
  reason : String
  semantic_tokens : List String
deriving DecidableEq, Repr

/-- `KeyframeRecord` (frame vector index entry). -/
structure KeyframeRecord where
  frame_id : String
  window_id : String
  clip_id : String
  camera_id : String
  timestamp : Int
  embedding : List ℚ
  embedding_id : String
  semantic_tokens : List String
  route_id : RouteId
deriving DecidableEq, Repr

/-- `WindowFeatures`. -/
structure WindowFeatures where
  window_id : String
  clip_id : String
  camera_id : String
  t_start : Int
  t_end : Int
  pooled_embedding : List ℚ
  per_timestep_embeddings : List (List ℚ)
  semantic_tokens : List String
deriving DecidableEq, Repr

/-- `ValidatedWindow` (stage 2 output). -/
structure ValidatedWindow where
  window_id : String
  clip_id : String
  camera_id : String
  t_start : Int
  t_end : Int
  confidence : ℚ
  query_text : String
deriving DecidableEq, Repr

/-- `Tracklet` (stage 3 output). -/
structure Tracklet where
  track_id : String
  clip_id : String
  camera_id : String
  window_id : String
  entity_type : EntityType
  label : String
  t_start : Int
  t_end : Int
  mask_confidence : ℚ
  overlay_uri : String
deriving DecidableEq, Repr

/-- `EntityLink` (stage 4 output). -/
structure EntityLink where
  entity_id : String
  entity_type : EntityType
  label : String
  track_ids : List String
  confidence : ℚ
  resolved : Bool
deriving DecidableEq, Repr

/-- `TemporalSegment` (stage 5 output). -/
structure TemporalSegment where
  segment_id : String
  clip_id : String
  camera_id : String
  track_id : String
  action : String
  t_start : Int
  t_end : Int
  confidence : ℚ
  failure_flags : List String
deriving DecidableEq, Repr

/-- `EvidenceRef`. -/
structure EvidenceRef where
  clip_id : String
  camera_id : String
  frame_range : Int × Int
  overlay_uri : String
  embedding_id : String
  model_version : String
deriving DecidableEq, Repr

/-- `GraphNode`; the properties dict becomes a string association list
(numeric/boolean property values are rendered as strings). -/
structure GraphNode where
  node_id : String
  node_type : String
  properties : List (String × String)
deriving DecidableEq, Repr

/-- `GraphEdge`. -/
structure GraphEdge where
  edge_id : String
  edge_type : String
  source_id : String
  target_id : String
  t_start : Int
  t_end : Int
  camera_id : String
  confidence : ℚ
  evidence_refs : List EvidenceRef
deriving DecidableEq, Repr

/-- `ClaimRecord` (stage 7). -/
structure ClaimRecord where
  claim_id : String
  text : String
  entity_ids : List String
  camera_id : String
  t_start : Int
  t_end : Int
  confidence : ℚ
  evidence_refs : List EvidenceRef
deriving DecidableEq, Repr

/-- `SynthesisOutput` (stage 7). -/
structure SynthesisOutput where
  summary : String
  claims : List ClaimRecord
  evidence_appendix : List String
  redacted_claim_count : Nat
deriving DecidableEq, Repr

/-! ### adapters.py — `_contiguous_spans` and `TriggerRouter` -/

/-- Loop body of `_contiguous_spans`: walk the strictly ascending
timestamps, extending the current run `[start, e]` while the next value is
adjacent and emitting the finished run otherwise. -/
def contiguousSpansGo : List Int → Int → Int → List (Int × Int) → List (Int × Int)
  | [], start, e, acc => acc ++ [(start, e)]
  | v :: rest, start, e, acc =>
    if v = e + 1 then contiguousSpansGo rest start v acc
    else contiguousSpansGo rest v v (acc ++ [(start, e)])

/-- `_contiguous_spans`: maximal integer-adjacent runs of
`sorted(set(timestamps))`. -/
def contiguousSpans (timestamps : List Int) : List (Int × Int) :=
  match sortedDedupInt timestamps with
  | [] => []
  | t :: rest => contiguousSpansGo rest t t []

/-- The mean-background-motion route test of `TriggerRouter.choose_route`. -/
def TriggerRouter.choose_route (clip : Clip) : RouteId :=
  if clip.metadata.has_motion_vectors then .meta_sync
  else if clip.camera_type = "moving" then .sig_ex_adaptive
  else if listMean (clip.frames.map (·.background_motion)) > 55/100 then .bg_motion_trigger
  else .cv_state

/-- `has_semantic_signal` inside `TriggerRouter.extract_active_windows`:
the frame has action labels, or the joined lowercased object labels
contain one of the hard-coded semantic tokens. -/
def hasSemanticSignal (frame : FrameObservation) : Bool :=
  frame.actions ≠ [] ||
    (["suv", "person", "vehicle", "car", "truck"].any fun token =>
      strContainsSub (strToLower (String.intercalate " " frame.objects)) token)

/-- The per-frame "meaningful" flag of `extract_active_windows` for the
given route. -/
def frameMeaningful (route : RouteId) (frame : FrameObservation) : Bool :=
  if route = .bg_motion_trigger then
    hasSemanticSignal frame && frame.background_motion > 4/10
  else hasSemanticSignal frame

/-- The meaningful-timestamp list accumulated by
`extract_active_windows` (frame order). -/
def meaningfulTimestamps (clip : Clip) (route : RouteId) : List Int :=
  (clip.frames.filter (frameMeaningful route)).map (·.timestamp)

/-- `TriggerRouter.extract_active_windows`: `(t_start, t_end, reason)`
spans for one clip under the chosen route. -/
def TriggerRouter.extract_active_windows (clip : Clip) (route : RouteId) :
    List (Int × Int × String) :=
  let fromActivity :=
    (contiguousSpans (meaningfulTimestamps clip route)).map
      fun p => (p.1, p.2, "activity_detected")
  if route = .meta_sync then
    match clip.metadata.active_windows with
    | some (w :: ws) => ((w :: ws).map fun raw => (raw.t_start, raw.t_end, "metadata_window"))
    | _ => fromActivity
  else fromActivity

/-! ### adapters.py — `QueryDecomposer` -/

/-- `QueryDecomposer.decompose`: replace commas with `" and "`, split,
strip, drop empties; the original query always comes first and parts equal
to it (case-insensitively) are dropped. -/
def QueryDecomposer.decompose (queryText : String) : List String :=
  let normalized := strReplace queryText "," " and "
  let parts := ((strSplitOn normalized " and ").map strTrim).filter (· ≠ "")
  if parts = [] then [queryText]
  else queryText :: parts.filter (fun part => strToLower part ≠ strToLower queryText)

/-! ### adapters.py — `ReIDResolver` -/

/-- Topology lookup `camera_topology.get(camera, ())`. -/
def topoGet (topology : List (String × List String)) (camera : String) : List String :=
  ((topology.find? (fun p => p.1 = camera)).map (·.2)).getD []

/-- Insertion step for label grouping (Python `dict.setdefault(label,
[]).append(t)`): keys keep first-insertion order, values keep encounter
order. -/
def groupInsert (acc : List (String × List Tracklet)) (key : String) (t : Tracklet) :
    List (String × List Tracklet) :=
  match acc with
  | [] => [(key, [t])]
  | (k, items) :: rest =>
    if k = key then (k, items ++ [t]) :: rest
    else (k, items) :: groupInsert rest key t

/-- Group the tracklets of one entity type by lowercased label. -/
def groupByLabel (entityType : EntityType) (tracklets : List Tracklet) :
    List (String × List Tracklet) :=
  tracklets.foldl
    (fun acc t =>
      if t.entity_type = entityType then groupInsert acc (strToLower t.label) t else acc)
    []

/-- Key order `(t_start, camera_id)` used to sort person tracklet
groups. -/
def trkKeyLt (a b : Tracklet) : Bool :=
  a.t_start < b.t_start || (a.t_start = b.t_start && strLt a.camera_id b.camera_id)

/-- The pairwise topology walk of `_resolve_person_links`: scan
consecutive tracklets of the sorted group and fail at the first
cross-camera transition that is neither to a declared neighbor nor within
the travel budget. -/
def personWalk (topology : List (String × List String)) (maxTravel : Int) :
    List Tracklet → Bool
  | [] => true
  | [_] => true
  | prev :: curr :: rest =>
    if prev.camera_id = curr.camera_id then personWalk topology maxTravel (curr :: rest)
    else
      let neighbors := topoGet topology prev.camera_id
      let travelTime := max 0 (curr.t_start - prev.t_end)
      if ¬ neighbors.contains curr.camera_id ∧ travelTime > maxTravel then false
      else personWalk topology maxTravel (curr :: rest)

/-- `_resolve_object_links` body for one label group. -/
def mkObjectLink (label : String) (items : List Tracklet) : EntityLink :=
  { entity_id := stable_id "OBJ" [label]
    entity_type := .object
    label := label
    track_ids := sortListBy strLt (items.map (·.track_id))
    confidence := 83/100
    resolved := true }

/-- `_resolve_person_links` body for one label group. -/
def mkPersonLink (topology : List (String × List String)) (maxTravel : Int)
    (label : String) (items : List Tracklet) : EntityLink :=
  let sortedItems := sortListBy trkKeyLt items
  let resolved := personWalk topology maxTravel sortedItems
  { entity_id := stable_id "PER" [label]
    entity_type := .person
    label := label
    track_ids := sortListBy strLt (sortedItems.map (·.track_id))
    confidence := if resolved then 87/100 else 46/100
    resolved := resolved }

/-- `ReIDResolver._resolve_object_links`. -/
def ReIDResolver.resolveObjectLinks (tracklets : List Tracklet) : List EntityLink :=
  (groupByLabel .object tracklets).map fun g => mkObjectLink g.1 g.2

/-- `ReIDResolver._resolve_person_links`. -/
def ReIDResolver.resolvePersonLinks (tracklets : List Tracklet)
    (topology : List (String × List String)) (maxTravel : Int) : List EntityLink :=
  (groupByLabel .person tracklets).map fun g => mkPersonLink topology maxTravel g.1 g.2

/-- `ReIDResolver.resolve`. -/
def ReIDResolver.resolve (tracklets : List Tracklet)
    (topology : List (String × List String)) (maxTravel : Int) : List EntityLink :=
  ReIDResolver.resolveObjectLinks tracklets ++
    ReIDResolver.resolvePersonLinks tracklets topology maxTravel

/-! ### adapters.py — `TemporalGroundingAdapter` -/

/-- Loop body of `TemporalGroundingAdapter._extract_spans`, iterating over
`zip(timestamps, scores)` with the hysteresis state `(in_span,
current_start, current_scores)`; returns the finished spans together with
the final state. -/
def extractSpansLoop (high low : ℚ) :
    List (Int × ℚ) → Bool → Int → List ℚ → List (Int × Int × ℚ) →
    List (Int × Int × ℚ) × Bool × Int × List ℚ
  | [], inSpan, curStart, curScores, spans => (spans, inSpan, curStart, curScores)
  | (ts, score) :: rest, inSpan, curStart, curScores, spans =>
    if ¬ inSpan ∧ high ≤ score then
      extractSpansLoop high low rest true ts [score] spans
    else if inSpan ∧ low ≤ score then
      extractSpansLoop high low rest true curStart (curScores ++ [score]) spans
    else if inSpan then
      extractSpansLoop high low rest false curStart [] (spans ++ [(curStart, ts, listMean curScores)])
    else
      extractSpansLoop high low rest inSpan curStart curScores spans

/-- `TemporalGroundingAdapter._extract_spans`: two-threshold hysteresis
span extraction; a still-open span is closed at the last timestamp. -/
def extract_spans (timestamps : List Int) (scores : List ℚ) (high low : ℚ) :
    List (Int × Int × ℚ) :=
  if timestamps = [] ∨ scores = [] then []
  else
    match extractSpansLoop high low (timestamps.zip scores) false (timestamps.headD 0) [] [] with
    | (spans, true, curStart, curScores) =>
        spans ++ [(curStart, timestamps.getLastD 0, listMean curScores)]
    | (spans, false, _, _) => spans

/-- The per-frame relevance score of `TemporalGroundingAdapter.localize`:
`1.0` on query/action token overlap, `0.3` for frames with actions
but no overlap, `0.1` otherwise. -/
def frameRelevanceScore (queryTokens : List String) (frame : FrameObservation) : ℚ :=
  let actionTokens := tokenize (String.intercalate " " frame.actions)
  if overlap_score queryTokens actionTokens > 0 then 1
  else if frame.actions ≠ [] then 3/10
  else 1/10

/-- The frames of the clip inside the tracklet's time span (`localize`). -/
def localizeFrames (tracklet : Tracklet) (clip : Clip) : List FrameObservation :=
  clip.frames.filter fun f => tracklet.t_start ≤ f.timestamp ∧ f.timestamp ≤ tracklet.t_end

/-- The timestamp series `localize` builds. -/
def localizeTimestamps (tracklet : Tracklet) (clip : Clip) : List Int :=
  (localizeFrames tracklet clip).map (·.timestamp)

/-- The smoothed score curve `localize` builds. -/
def localizeSmoothedScores (tracklet : Tracklet) (clip : Clip) (queryText : String)
    (smoothingWindowSize : Int) : List ℚ :=
  smooth_curve ((localizeFrames tracklet clip).map (frameRelevanceScore (tokenize queryText)))
    smoothingWindowSize

/-- `TemporalGroundingAdapter.localize`. -/
def TemporalGroundingAdapter.localize (tracklet : Tracklet) (clip : Clip)
    (queryText : String) (smoothingWindowSize : Int) (high low maskFloor : ℚ) :
    TemporalSegment :=
  let queryTokens := tokenize queryText
  let timestamps := localizeTimestamps tracklet clip
  let smoothed := localizeSmoothedScores tracklet clip queryText smoothingWindowSize
  let spans := extract_spans timestamps smoothed high low
  let maskFlags := if tracklet.mask_confidence < maskFloor then ["low_mask_confidence"] else []
  let (failureFlags, tStart, tEnd, confidence) :=
    match spans with
    | [] => (maskFlags ++ ["low_similarity"], tracklet.t_start, tracklet.t_end, (35/100 : ℚ))
    | (s, e, conf) :: _ => (maskFlags, s, e, conf)
  let action := if queryTokens.contains "exit" then "person_exits_vehicle" else "tracked_activity"
  { segment_id := stable_id "SEG" [tracklet.track_id, toString tStart, toString tEnd, action]
    clip_id := clip.clip_id
    camera_id := clip.camera_id
    track_id := tracklet.track_id
    action := action
    t_start := tStart
    t_end := tEnd
    confidence := round3 confidence
    failure_flags := sortedDedupStr failureFlags }

/-! ### stores.py — association-list stores -/

/-- Dict `put` / `upsert`: overwrite in place, append when new (Python
dicts keep first-insertion order). -/
def assocPut (m : List (String × α)) (k : String) (v : α) : List (String × α) :=
  match m with
  | [] => [(k, v)]
  | (k0, v0) :: rest => if k0 = k then (k0, v) :: rest else (k0, v0) :: assocPut rest k v

/-- Dict `get` returning an `Option`. -/
def assocGet (m : List (String × α)) (k : String) : Option α :=
  ((m.find? fun p => p.1 = k).map (·.2))

/-- `EvidenceRegistry.append`: `by_track_id.setdefault(track_id,
[]).append(ref)`. -/
def registryAppend (reg : List (String × List EvidenceRef)) (trackId : String)
    (ref : EvidenceRef) : List (String × List EvidenceRef) :=
  match reg with
  | [] => [(trackId, [ref])]
  | (k, refs) :: rest =>
    if k = trackId then (k, refs ++ [ref]) :: rest
    else (k, refs) :: registryAppend rest trackId ref

/-- `EvidenceRegistry.get`: the accumulated refs for a track id. -/
def registryGet (reg : List (String × List EvidenceRef)) (trackId : String) :
    List EvidenceRef :=
  (assocGet reg trackId).getD []

/-! ### adapters.py — `SAM3Adapter` -/

/-- `SAM3Adapter._new_tracklet` (also records the overlay artifact). -/
def SAM3Adapter.new_tracklet (clip : Clip) (window : ValidatedWindow)
    (entityType : EntityType) (label : String) (confidence : ℚ)
    (artifacts : List (String × String)) : Tracklet × List (String × String) :=
  let trackId := stable_id "TRACK" [clip.clip_id, window.window_id, entityTypeStr entityType, label]
  let overlayUri := "overlay://" ++ clip.clip_id ++ "/" ++ trackId ++ ".json"
  let payload := "mask_bbox_overlay:" ++ label ++ ":" ++
    toString window.t_start ++ "-" ++ toString window.t_end
  (⟨trackId, clip.clip_id, clip.camera_id, window.window_id, entityType, label,
      window.t_start, window.t_end, round3 (min (max confidence 0) 1), overlayUri⟩,
    assocPut artifacts overlayUri payload)

/-- Fold step appending one grounded tracklet while threading the
artifact store. -/
def SAM3Adapter.appendTracklet (clip : Clip) (window : ValidatedWindow)
    (entityType : EntityType) (confidence : String → ℚ)
    (acc : List Tracklet × List (String × String)) (label : String) :
    List Tracklet × List (String × String) :=
  let (t, arts) := SAM3Adapter.new_tracklet clip window entityType label (confidence label) acc.2
  (acc.1 ++ [t], arts)

/-- `SAM3Adapter.ground_window`: deterministic spatial grounding from the
frame object labels inside the validated window. -/
def SAM3Adapter.ground_window (window : ValidatedWindow) (clip : Clip)
    (queryVariant : String) (artifacts : List (String × String)) :
    List Tracklet × List (String × String) :=
  let queryTokens := tokenize queryVariant
  let frames := clip.frames.filter fun f =>
    window.t_start ≤ f.timestamp ∧ f.timestamp ≤ window.t_end
  let allObjects := (frames.map (·.objects)).flatten
  let objectLabels := sortedDedupStr (allObjects.filter fun obj =>
    ["suv", "car", "truck", "vehicle"].any fun tok => strContainsSub (strToLower obj) tok)
  let personLabels := sortedDedupStr (allObjects.filter fun obj =>
    strStartsWith (strToLower obj) "person")
  let step1 :=
    if queryTokens.contains "suv" || queryTokens.contains "vehicle" || queryTokens.contains "car" then
      objectLabels.foldl
        (SAM3Adapter.appendTracklet clip window .object fun label =>
          if queryTokens.any (fun tok => strContainsSub (strToLower label) tok) then 88/100 else 62/100)
        ([], artifacts)
    else ([], artifacts)
  let step2 :=
    if queryTokens.contains "person" || queryTokens.contains "who" then
      personLabels.foldl (SAM3Adapter.appendTracklet clip window .person fun _ => 86/100) step1
    else step1
  if step2.1 = [] then
    (objectLabels.take 1).foldl
      (SAM3Adapter.appendTracklet clip window .object fun _ => 42/100) ([], step2.2)
  else step2

/-! ### adapters.py — `MultimodalSynthesizerAdapter` -/

/-- The fixed conservative summary emitted when no grounded claims
remain. -/
def insufficientEvidenceSummary : String :=
  "Insufficient verified evidence to answer confidently. Returning conservative output with uncertainty."

/-- `MultimodalSynthesizerAdapter.synthesize`: drop claims with empty
evidence (counting them as redactions), then render the summary and the
evidence appendix. -/
def MultimodalSynthesizerAdapter.synthesize (_queryText : String)
    (claims : List ClaimRecord) : SynthesisOutput :=
  let groundedClaims := claims.filter fun c => c.evidence_refs ≠ []
  let redacted := (claims.filter fun c => c.evidence_refs = []).length
  if groundedClaims = [] then
    { summary := insufficientEvidenceSummary
      claims := []
      evidence_appendix := []
      redacted_claim_count := redacted }
  else
    let lines := ((List.range groundedClaims.length).zip groundedClaims).map
      fun p => toString (p.1 + 1) ++ ". " ++ p.2.text
    { summary := String.intercalate " " lines
      claims := groundedClaims
      evidence_appendix := groundedClaims.map fun c =>
        "claim=" ++ c.claim_id ++ " camera=" ++ c.camera_id ++
          " t=(" ++ toString c.t_start ++ "," ++ toString c.t_end ++ ") evidence=" ++
          toString c.evidence_refs.length
      redacted_claim_count := redacted }

/-! ### pipeline.py — stage 2 candidate selection
(`_stage_2_temporal_retrieval` lines 254-308, parameterized over the
scored candidate lists so the selection policy can be studied on its
own) -/

/-- Descending stable order on validated windows by confidence
(`sorted(..., key=confidence, reverse=True)`). -/
def vwDescLt (a b : ValidatedWindow) : Bool := decide (b.confidence < a.confidence)

/-- One iteration of the sub-query loop: add every rescored candidate at
or above the lowered threshold `max(0.35, threshold - 0.15)`, then
unconditionally retain the best (first) rescored candidate. -/
def stage2SubStep (threshold : ℚ) (validated rescored : List ValidatedWindow) :
    List ValidatedWindow :=
  let validated := validated ++
    rescored.filter fun w => max (35/100) (threshold - 15/100) ≤ w.confidence
  match rescored with
  | [] => validated
  | h :: _ => validated ++ [h]

/-- One step of the `best_by_clip` fallback dict: keep the first scored
window seen for each clip id. -/
def bestByClipStep (acc : List ValidatedWindow) (item : ValidatedWindow) :
    List ValidatedWindow :=
  if acc.any (fun e => e.clip_id = item.clip_id) then acc else acc ++ [item]

/-- The `best_by_clip` fallback dict: the first (highest-ranked) scored
window per clip id, in clip first-occurrence order. -/
def bestByClip (scored : List ValidatedWindow) : List ValidatedWindow :=
  scored.foldl bestByClipStep []

/-- The validated list of stage 2 just before deduplication: full-query
threshold filter, sub-query augmentation, then the best-per-clip fallback
when the list is still empty. -/
def stage2Validated (threshold : ℚ) (scored : List ValidatedWindow)
    (subScored : List (List ValidatedWindow)) : List ValidatedWindow :=
  let validated := scored.filter fun w => threshold ≤ w.confidence
  let validated := subScored.foldl (stage2SubStep threshold) validated
  if validated = [] ∧ scored ≠ [] then validated ++ bestByClip scored else validated

/-- Deduplication step: keep one entry per window id, replacing it when a
strictly higher-confidence duplicate arrives (position keeps
first-insertion order, dict semantics). -/
def upsertUnique (acc : List ValidatedWindow) (item : ValidatedWindow) :
    List ValidatedWindow :=
  if acc.any (fun e => e.window_id = item.window_id) then
    acc.map fun e =>
      if e.window_id = item.window_id ∧ e.confidence < item.confidence then item else e
  else acc ++ [item]

/-- The clip-diversity pass: walk the ranked list, keeping one window per
distinct clip, stopping at `top_k`. -/
def diversityGo (topK : Nat) :
    List ValidatedWindow → List ValidatedWindow → List String → List ValidatedWindow
  | [], selected, _ => selected
  | item :: rest, selected, seenClips =>
    if seenClips.contains item.clip_id then diversityGo topK rest selected seenClips
    else
      let selected := selected ++ [item]
      if topK ≤ selected.length then selected
      else diversityGo topK rest selected (seenClips ++ [item.clip_id])

/-- The fill pass: top up with the remaining ranked windows (skipping
already-selected window ids) until `top_k`. -/
def fillGo (topK : Nat) : List ValidatedWindow → List ValidatedWindow → List ValidatedWindow
  | [], selected => selected
  | item :: rest, selected =>
    if topK ≤ selected.length then selected
    else if (selected.map (·.window_id)).contains item.window_id then fillGo topK rest selected
    else fillGo topK rest (selected ++ [item])

/-- Stage-2 final selection from the scored candidate lists: validate,
deduplicate by window id keeping max confidence, rank by confidence,
diversity pass, fill pass, cap at `top_k`. -/
def stage2SelectFrom (threshold : ℚ) (topK : Nat) (scored : List ValidatedWindow)
    (subScored : List (List ValidatedWindow)) : List ValidatedWindow :=
  let validated := stage2Validated threshold scored subScored
  let ranked := sortListBy vwDescLt (validated.foldl upsertUnique [])
  let selected := diversityGo topK ranked [] []
  (fillGo topK ranked selected).take topK

/-! ### Model ports (deterministic pseudo-embedding stand-ins)

`utils.deterministic_vector` derives a pseudo-embedding from a SHA-256
digest of a seed string and `utils.cosine_similarity` compares vectors
with float square roots; neither is representable exactly here, and no
claim depends on their numeric values.  Following the model-port boundary
of the spec they are supplied as an abstract record of deterministic
functions. -/

structure Ports where
  /-- `deterministic_vector seed`: the seeded pseudo-embedding. -/
  dv : String → List ℚ
  /-- `cosine_similarity`: similarity of two embedding vectors. -/
  cosSim : List ℚ → List ℚ → ℚ

/-- `SigLIP2Adapter.embed_text`. -/
def SigLIP2Adapter.embed_text (ports : Ports) (text : String) : List ℚ :=
  ports.dv ("siglip2:text:" ++ text)

/-- `SigLIP2Adapter.embed_frame`. -/
def SigLIP2Adapter.embed_frame (ports : Ports) (clipId : String) (timestamp : Int)
    (semanticTokens : List String) : List ℚ :=
  ports.dv ("siglip2:frame:" ++ clipId ++ ":" ++ toString timestamp ++ ":" ++
    String.intercalate "|" (sortListBy strLt semanticTokens))

/-- `IVNextLiTTextHeadAdapter.embed_text`. -/
def IVNextLiTTextHeadAdapter.embed_text (ports : Ports) (text : String) : List ℚ :=
  ports.dv ("lithead:text:" ++ text)

/-- `InternVideoNextAdapter.extract_window_features`. -/
def InternVideoNextAdapter.extract_window_features (ports : Ports)
    (window : ActiveWindow) (clip : Clip) : WindowFeatures :=
  let framesInWindow := clip.frames.filter fun f =>
    window.t_start ≤ f.timestamp ∧ f.timestamp ≤ window.t_end
  let frames := if framesInWindow = [] then
      [⟨window.t_start, [], [], 0⟩] else framesInWindow
  let perFrame := frames.map fun f =>
    let frameTokens := f.objects ++ f.actions ++ [clip.camera_id, clip.location]
    (tokenize (String.intercalate " " frameTokens),
      ports.dv ("ivnext:frame:" ++ clip.clip_id ++ ":" ++ toString f.timestamp ++ ":" ++
        String.intercalate "|" frameTokens))
  let semanticTokens := (perFrame.map (·.1)).flatten
  let pooled := ports.dv ("ivnext:pooled:" ++ clip.clip_id ++ ":" ++
    toString window.t_start ++ ":" ++ toString window.t_end ++ ":" ++
    String.intercalate "|" (sortedDedupStr semanticTokens))
  { window_id := window.window_id
    clip_id := window.clip_id
    camera_id := window.camera_id
    t_start := window.t_start
    t_end := window.t_end
    pooled_embedding := pooled
    per_timestep_embeddings := perFrame.map (·.2)
    semantic_tokens := sortedDedupStr semanticTokens }

/-! ### stores.py — the store bundle threaded through a run -/

/-- `PipelineStores`: the engine-lifetime mutable stores, as explicit
state. -/
structure PipelineStores where
  frame_index : List KeyframeRecord
  window_index : List (String × List ℚ)
  cache_l1 : List (String × WindowFeatures)
  cache_l2 : List (String × List String)
  cache_hits : Nat
  cache_misses : Nat
  artifacts : List (String × String)
  graph_nodes : List (String × GraphNode)
  graph_edges : List (String × GraphEdge)
  evidence_registry : List (String × List EvidenceRef)
deriving DecidableEq, Repr

/-- A fresh engine's stores. -/
def emptyStores : PipelineStores := ⟨[], [], [], [], 0, 0, [], [], [], []⟩

/-- Descending stable order on `(similarity, record)` pairs. -/
def hitDescLt (a b : ℚ × KeyframeRecord) : Bool := decide (b.1 < a.1)

/-- `FrameIndexStore.search`: rank every record by cosine similarity to
the query embedding (stable descending sort) and take the top `k`. -/
def FrameIndexStore.search (ports : Ports) (records : List KeyframeRecord)
    (queryEmbedding : List ℚ) (topK : Nat) : List (ℚ × KeyframeRecord) :=
  (sortListBy hitDescLt
    (records.map fun r => (ports.cosSim queryEmbedding r.embedding, r))).take topK

/-! ### spec_schema.py — the validated runtime configuration -/

structure RetrievalConstants where
  stage2_initial_top_k_windows : Nat
  stage2_validated_top_k_windows : Nat
  stage2_min_validation_confidence : ℚ
deriving DecidableEq, Repr

structure GroundingConstants where
  sam3_min_mask_confidence : ℚ
  sam3_retry_max_attempts : Nat
deriving DecidableEq, Repr

structure ReidConstants where
  max_cross_camera_travel_seconds : Int
deriving DecidableEq, Repr

structure TemporalLocalizationConstants where
  smoothing_window_size : Int
  hysteresis_high : ℚ
  hysteresis_low : ℚ
deriving DecidableEq, Repr

/-- The fields of `RuntimeConfig` read by the pipeline engine and the
orchestration contract (schema validation itself is an external
collaborator). -/
structure RuntimeConfig where
  spec_version : String
  retrieval : RetrievalConstants
  grounding : GroundingConstants
  reid : ReidConstants
  temporal_localization : TemporalLocalizationConstants
  required_state_keys : List String
deriving DecidableEq, Repr

/-! ### pipeline.py — the seven stages -/

/-- `clips_by_id[cid]` (`{clip.clip_id: clip}`, later entries win). -/
def clipById (clips : List Clip) (clipId : String) : Option Clip :=
  clips.reverse.find? fun c => c.clip_id = clipId

/-- `_stage_1_activity_ingestion`: route each clip, cut activity windows,
collect per-window semantic tokens, and append one embedded
`KeyframeRecord` per in-window frame to the frame index. -/
def stage1ActivityIngestion (ports : Ports) (request : QueryRequest)
    (st : PipelineStores) : List ActiveWindow × PipelineStores :=
  request.clips.foldl
    (fun acc clip =>
      let route := TriggerRouter.choose_route clip
      let windowSpans := TriggerRouter.extract_active_windows clip route
      ((List.range windowSpans.length).zip windowSpans).foldl
        (fun acc2 idxSpan =>
          let idx := idxSpan.1
          let tStart := idxSpan.2.1
          let tEnd := idxSpan.2.2.1
          let reason := idxSpan.2.2.2
          let frames := clip.frames.filter fun f => tStart ≤ f.timestamp ∧ f.timestamp ≤ tEnd
          let semanticTokens := sortedDedupStr
            ((frames.map fun f => tokenize (String.intercalate " " (f.objects ++ f.actions))).flatten)
          let windowId := stable_id "WIN"
            [clip.clip_id, routeStr route, toString idx, toString tStart, toString tEnd]
          let window : ActiveWindow :=
            ⟨windowId, clip.clip_id, clip.camera_id, route, tStart, tEnd, reason, semanticTokens⟩
          let st2 := frames.foldl
            (fun st3 f =>
              let frameId := stable_id "FRAME" [clip.clip_id, toString f.timestamp]
              let embedding := SigLIP2Adapter.embed_frame ports clip.clip_id f.timestamp semanticTokens
              let embeddingId := stable_id "EMB" [frameId, "siglip2"]
              { st3 with frame_index := st3.frame_index ++
                  [⟨frameId, windowId, clip.clip_id, clip.camera_id, f.timestamp,
                    embedding, embeddingId, semanticTokens, route⟩] })
            acc2.2
          (acc2.1 ++ [window], st2))
        acc)
    ([], st)

/-- Python `max(step_sims)` with the `else 0.0` guard. -/
def qListMax : List ℚ → ℚ
  | [] => 0
  | h :: t => t.foldl max h

/-- `_score_windows`: score each distinct candidate window against one
query text, fetching window features through the two-tier cache (recording
hits/misses) and upserting the pooled embedding into the window index;
results are sorted by descending confidence. -/
def scoreWindows (ports : Ports) (request : QueryRequest) (candidateIds : List String)
    (windowsById : List (String × ActiveWindow)) (queryText : String)
    (queryTokens : List String) (queryLitEmbedding : List ℚ) (st : PipelineStores) :
    List ValidatedWindow × PipelineStores :=
  let folded := (distinctList candidateIds).foldl
    (fun (acc : List ValidatedWindow × PipelineStores) windowId =>
      match assocGet windowsById windowId with
      | none => acc
      | some window =>
        let cacheKey := "l1:" ++ window.window_id
        let fetched : Option (WindowFeatures × PipelineStores) :=
          match assocGet acc.2.cache_l1 cacheKey with
          | none =>
            match clipById request.clips window.clip_id with
            | none => none
            | some clip =>
              let features := InternVideoNextAdapter.extract_window_features ports window clip
              some (features,
                { acc.2 with
                    cache_misses := acc.2.cache_misses + 1
                    cache_l1 := assocPut acc.2.cache_l1 cacheKey features })
          | some cached => some (cached, { acc.2 with cache_hits := acc.2.cache_hits + 1 })
        match fetched with
        | none => acc
        | some (features, st2) =>
          let st3 := { st2 with
            window_index := assocPut st2.window_index window.window_id features.pooled_embedding }
          let pooledSim := (ports.cosSim queryLitEmbedding features.pooled_embedding + 1) / 2
          let stepSims := features.per_timestep_embeddings.map
            fun step => (ports.cosSim queryLitEmbedding step + 1) / 2
          let stepSim := qListMax stepSims
          let tokenSim := overlap_score queryTokens features.semantic_tokens
          let confidence := round3 ((45/100) * pooledSim + (35/100) * stepSim + (20/100) * tokenSim)
          (acc.1 ++ [⟨window.window_id, window.clip_id, window.camera_id,
              window.t_start, window.t_end, confidence, queryText⟩], st3))
    ([], st)
  (sortListBy vwDescLt folded.1, folded.2)

/-- `_stage_2_temporal_retrieval`: search the frame index with the full
query, score the candidate windows under the full query and every
decomposed sub-query, then apply the selection policy
(`stage2SelectFrom`). -/
def stage2TemporalRetrieval (ports : Ports) (cfg : RuntimeConfig) (request : QueryRequest)
    (activeWindows : List ActiveWindow) (st : PipelineStores) :
    List ValidatedWindow × PipelineStores :=
  let queryEmbedding := SigLIP2Adapter.embed_text ports request.query_text
  let queryLitEmbedding := IVNextLiTTextHeadAdapter.embed_text ports request.query_text
  let queryTokens := tokenize request.query_text
  let frameHits := FrameIndexStore.search ports st.frame_index queryEmbedding
    cfg.retrieval.stage2_initial_top_k_windows
  let windowsById := activeWindows.reverse.map fun w => (w.window_id, w)
  let candidateIds := (frameHits.map fun hit => hit.2.window_id).filter
    fun wid => (assocGet windowsById wid).isSome
  let (scored, st) := scoreWindows ports request candidateIds windowsById
    request.query_text queryTokens queryLitEmbedding st
  let (subScored, st) := (QueryDecomposer.decompose request.query_text).tail.foldl
    (fun (acc : List (List ValidatedWindow) × PipelineStores) subquery =>
      let (rescored, st2) := scoreWindows ports request candidateIds windowsById
        subquery (tokenize subquery) (IVNextLiTTextHeadAdapter.embed_text ports subquery) acc.2
      (acc.1 ++ [rescored], st2))
    ([], st)
  (stage2SelectFrom cfg.retrieval.stage2_min_validation_confidence
    cfg.retrieval.stage2_validated_top_k_windows scored subScored, st)

/-- The bounded grounding retry loop of `_stage_3_spatial_grounding`:
attempt indices cycle through the decomposed query variants, the best
attempt by mean mask confidence is kept, and the loop stops early once the
mean reaches the threshold. -/
def stage3Go (window : ValidatedWindow) (clip : Clip) (variants : List String)
    (threshold : ℚ) :
    Nat → Nat → List Tracklet → ℚ → List (String × String) →
    List Tracklet × ℚ × List (String × String)
  | 0, _, best, bestScore, arts => (best, bestScore, arts)
  | remaining + 1, attempt, best, bestScore, arts =>
    let variant := variants.getD (min attempt (variants.length - 1)) ""
    let grounded := SAM3Adapter.ground_window window clip variant arts
    if grounded.1 ≠ [] then
      let medianConf := listMean (grounded.1.map (·.mask_confidence))
      let best2 := if bestScore < medianConf then grounded.1 else best
      let bestScore2 := if bestScore < medianConf then medianConf else bestScore
      if threshold ≤ medianConf then (best2, bestScore2, grounded.2)
      else stage3Go window clip variants threshold remaining (attempt + 1) best2 bestScore2 grounded.2
    else stage3Go window clip variants threshold remaining (attempt + 1) best bestScore grounded.2

/-- `_detector_tracker_fallback`: at most two fixed-confidence (`0.51`)
tracklets straight from the frame object labels. -/
def detectorTrackerFallback (window : ValidatedWindow) (clip : Clip)
    (arts : List (String × String)) : List Tracklet × List (String × String) :=
  let frames := clip.frames.filter fun f =>
    window.t_start ≤ f.timestamp ∧ f.timestamp ≤ window.t_end
  let labels := sortedDedupStr (((frames.map (·.objects)).flatten).filter fun obj =>
    strStartsWith (strToLower obj) "person" || strContainsSub (strToLower obj) "suv" ||
      strContainsSub (strToLower obj) "car")
  (labels.take 2).foldl
    (fun acc label =>
      let entityType := if strStartsWith (strToLower label) "person" then EntityType.person else .object
      let trackId := stable_id "FALLBACK_TRACK" [clip.clip_id, window.window_id, label]
      let overlayUri := "overlay://" ++ clip.clip_id ++ "/" ++ trackId ++ ".json"
      (acc.1 ++ [⟨trackId, clip.clip_id, clip.camera_id, window.window_id, entityType,
          label, window.t_start, window.t_end, 51/100, overlayUri⟩],
        assocPut acc.2 overlayUri ("fallback_overlay:" ++ label)))
    ([], arts)

/-- `_stage_3_spatial_grounding`. -/
def stage3SpatialGrounding (cfg : RuntimeConfig) (request : QueryRequest)
    (validatedWindows : List ValidatedWindow) (st : PipelineStores) :
    List Tracklet × PipelineStores :=
  let threshold := cfg.grounding.sam3_min_mask_confidence
  let variants := QueryDecomposer.decompose request.query_text
  validatedWindows.foldl
    (fun acc window =>
      match clipById request.clips window.clip_id with
      | none => acc
      | some clip =>
        let (best0, bestScore, arts) := stage3Go window clip variants threshold
          (cfg.grounding.sam3_retry_max_attempts + 1) 0 [] (-1) acc.2.artifacts
        let (best, arts) :=
          if bestScore < threshold then
            let fb := detectorTrackerFallback window clip arts
            if fb.1 ≠ [] then fb else (best0, fb.2)
          else (best0, arts)
        let st2 := { acc.2 with artifacts := arts }
        let st3 := best.foldl
          (fun st4 track =>
            if threshold ≤ track.mask_confidence then
              { st4 with
                  cache_l2 := assocPut st4.cache_l2 ("l2:" ++ track.track_id)
                    (tokenize track.label) }
            else st4)
          st2
        (acc.1 ++ best, st3))
    ([], st)

/-- `_stage_4_entity_resolution`. -/
def stage4EntityResolution (cfg : RuntimeConfig) (request : QueryRequest)
    (tracklets : List Tracklet) : List EntityLink :=
  ReIDResolver.resolve tracklets request.camera_topology
    cfg.reid.max_cross_camera_travel_seconds

/-- `_stage_5_temporal_localization`: localize person tracklets (all
tracklets when no persons exist), then flag overlapping same-clip segments
with `multi_actor_ambiguity`. -/
def stage5TemporalLocalization (cfg : RuntimeConfig) (request : QueryRequest)
    (tracklets : List Tracklet) : List TemporalSegment :=
  let personTracklets := tracklets.filter fun t => t.entity_type = .person
  let candidateTracklets := if personTracklets = [] then tracklets else personTracklets
  let segments := candidateTracklets.foldl
    (fun acc tracklet =>
      match clipById request.clips tracklet.clip_id with
      | none => acc
      | some clip =>
        acc ++ [TemporalGroundingAdapter.localize tracklet clip request.query_text
          cfg.temporal_localization.smoothing_window_size
          cfg.temporal_localization.hysteresis_high
          cfg.temporal_localization.hysteresis_low
          cfg.grounding.sam3_min_mask_confidence])
    []
  segments.map fun seg =>
    if segments.any (fun other => other.segment_id ≠ seg.segment_id ∧
        other.clip_id = seg.clip_id ∧
        ¬(other.t_end < seg.t_start ∨ seg.t_end < other.t_start)) then
      { seg with failure_flags := sortedDedupStr (seg.failure_flags ++ ["multi_actor_ambiguity"]) }
    else seg

/-- `entity_by_track[tid]`: the last entity link whose `track_ids`
contain the track (later dict writes win). -/
def entityByTrack (entityLinks : List EntityLink) (trackId : String) : Option EntityLink :=
  entityLinks.reverse.find? fun link => link.track_ids.contains trackId

/-- `track_by_id[tid]` (later entries win). -/
def trackById (tracklets : List Tracklet) (trackId : String) : Option Tracklet :=
  tracklets.reverse.find? fun t => t.track_id = trackId

/-- `_build_evidence_refs_for_track`: pick the first matching frame
embedding id (or a synthesized fallback id), append one `EvidenceRef` to
the registry under the track id, and return the registry's accumulated
tuple for that track. -/
def buildEvidenceRefsForTrack (specVersion : String) (frameIndex : List KeyframeRecord)
    (reg : List (String × List EvidenceRef)) (track : Tracklet)
    (segment : TemporalSegment) : List EvidenceRef × List (String × List EvidenceRef) :=
  let embeddingId := ((frameIndex.find? fun r =>
      r.clip_id = track.clip_id ∧ segment.t_start ≤ r.timestamp ∧
        r.timestamp ≤ segment.t_end).map (·.embedding_id)).getD
    (stable_id "EMB" [track.track_id, "fallback"])
  let evidence : EvidenceRef := ⟨track.clip_id, track.camera_id,
    (segment.t_start, segment.t_end), track.overlay_uri, embeddingId, specVersion⟩
  let reg2 := registryAppend reg track.track_id evidence
  (registryGet reg2 track.track_id, reg2)

/-- The EXITS-edge step of `_stage_6_graph_memory` for one temporal
segment. -/
def stage6ExitsStep (specVersion : String) (frameIndex : List KeyframeRecord)
    (tracklets : List Tracklet) (entityLinks : List EntityLink)
    (acc : List GraphEdge × List (String × GraphEdge) × List (String × List EvidenceRef))
    (segment : TemporalSegment) :
    List GraphEdge × List (String × GraphEdge) × List (String × List EvidenceRef) :=
  match entityByTrack entityLinks segment.track_id with
  | none => acc
  | some personLink =>
    if personLink.entity_type ≠ .person then acc
    else
      match trackById tracklets segment.track_id with
      | none => acc
      | some segTrack =>
        let sameWindowObjectTracks := tracklets.filter fun t =>
          t.clip_id = segment.clip_id ∧ t.window_id = segTrack.window_id ∧
            t.entity_type = .object
        let objectLink := (((sameWindowObjectTracks.map fun t =>
            entityByTrack entityLinks t.track_id).filterMap id).filter fun link =>
          link.entity_type = .object).head?
        match objectLink with
        | none => acc
        | some objLink =>
          let (evidenceRefs, reg2) := buildEvidenceRefsForTrack specVersion frameIndex
            acc.2.2 segTrack segment
          let edge : GraphEdge :=
            ⟨stable_id "EDGE" ["EXITS", personLink.entity_id, objLink.entity_id, segment.segment_id],
              "EXITS", personLink.entity_id, objLink.entity_id, segment.t_start, segment.t_end,
              segment.camera_id, segment.confidence, evidenceRefs⟩
          (acc.1 ++ [edge], assocPut acc.2.1 edge.edge_id edge, reg2)

/-- The MOVES_TO-edge step of `_stage_6_graph_memory` for one entity
link. -/
def stage6MovesStep (specVersion : String) (frameIndex : List KeyframeRecord)
    (tracklets : List Tracklet)
    (acc : List GraphEdge × List (String × GraphEdge) × List (String × List EvidenceRef))
    (link : EntityLink) :
    List GraphEdge × List (String × GraphEdge) × List (String × List EvidenceRef) :=
  if link.entity_type ≠ .person then acc
  else
    let linkedTracks := sortListBy trkKeyLt
      (link.track_ids.filterMap fun tid => trackById tracklets tid)
    (linkedTracks.zip linkedTracks.tail).foldl
      (fun acc2 pc =>
        let curr := pc.2
        let tmpSegment : TemporalSegment :=
          ⟨stable_id "TMPSEG" [curr.track_id], curr.clip_id, curr.camera_id, curr.track_id,
            "moves_to_camera", curr.t_start, curr.t_end, 8/10, []⟩
        let (evidenceRefs, reg2) := buildEvidenceRefsForTrack specVersion frameIndex
          acc2.2.2 curr tmpSegment
        let edge : GraphEdge :=
          ⟨stable_id "EDGE" ["MOVES_TO", link.entity_id, curr.camera_id, curr.track_id],
            "MOVES_TO", link.entity_id, curr.camera_id, curr.t_start, curr.t_end,
            curr.camera_id, if link.resolved then 8/10 else 45/100, evidenceRefs⟩
        (acc2.1 ++ [edge], assocPut acc2.2.1 edge.edge_id edge, reg2))
      acc

/-- `_stage_6_graph_memory`: upsert entity/track/camera nodes, build EXITS
and MOVES_TO edges with evidence, and return the node-store values plus
the locally built edge list (with the updated stores). -/
def stage6GraphMemory (specVersion : String) (frameIndex : List KeyframeRecord)
    (tracklets : List Tracklet) (entityLinks : List EntityLink)
    (temporalSegments : List TemporalSegment) (nodes0 : List (String × GraphNode))
    (edges0 : List (String × GraphEdge)) (reg0 : List (String × List EvidenceRef)) :
    (List GraphNode × List GraphEdge) ×
      (List (String × GraphNode) × List (String × GraphEdge) × List (String × List EvidenceRef)) :=
  let nodes1 := entityLinks.foldl
    (fun ns link => assocPut ns link.entity_id
      ⟨link.entity_id,
        if link.entity_type = .person then "PersonEntityID" else "ObjectClusterID",
        [("label", link.label), ("confidence", toString link.confidence),
          ("resolved", toString link.resolved)]⟩)
    nodes0
  let nodes2 := tracklets.foldl
    (fun ns track =>
      let ns2 := assocPut ns track.track_id
        ⟨track.track_id, "TrackID",
          [("clip_id", track.clip_id), ("camera_id", track.camera_id), ("label", track.label)]⟩
      assocPut ns2 track.camera_id ⟨track.camera_id, "CameraID", [("camera_id", track.camera_id)]⟩)
    nodes1
  let afterExits := temporalSegments.foldl
    (stage6ExitsStep specVersion frameIndex tracklets entityLinks) ([], edges0, reg0)
  let afterMoves := entityLinks.foldl
    (stage6MovesStep specVersion frameIndex tracklets) afterExits
  ((nodes2.map (·.2), afterMoves.1), (nodes2, afterMoves.2.1, afterMoves.2.2))

/-- `_stage_7_multimodal_synthesis`: one templated claim per graph edge,
carrying the edge's evidence. -/
def stage7Claims (graphEdges : List GraphEdge) : List ClaimRecord :=
  graphEdges.map fun edge =>
    let text :=
      if edge.edge_type = "EXITS" then
        "Person entity " ++ edge.source_id ++ " exited object entity " ++ edge.target_id ++
          " at camera " ++ edge.camera_id ++ " between " ++ toString edge.t_start ++
          "s and " ++ toString edge.t_end ++ "s."
      else
        "Person entity " ++ edge.source_id ++ " moved to camera " ++ edge.target_id ++
          " during " ++ toString edge.t_start ++ "s to " ++ toString edge.t_end ++ "s."
    ⟨stable_id "CLAIM" [edge.edge_id], text, [edge.source_id, edge.target_id],
      edge.camera_id, edge.t_start, edge.t_end, edge.confidence, edge.evidence_refs⟩

/-- `PipelineResult` (stage-duration wall-clock measurements are not
modelled; the cumulative cache counters are). -/
structure PipelineResult where
  query_id : String
  query_text : String
  active_windows : List ActiveWindow
  validated_windows : List ValidatedWindow
  tracklets : List Tracklet
  entity_links : List EntityLink
  temporal_segments : List TemporalSegment
  graph_nodes : List GraphNode
  graph_edges : List GraphEdge
  synthesis : SynthesisOutput
  cache_hits : Nat
  cache_misses : Nat
deriving DecidableEq, Repr

/-- The keys the orchestration state dict of `run` always carries (built
in `_new_state`, only ever reassigned afterwards). -/
def snapshotKeys : List String :=
  ["query_id", "normalized_query", "candidate_windows", "grounded_tracks",
    "entity_links", "temporal_segments", "evidence_package"]

/-- `OrchestratorContract.validate_state_snapshot` applied to the state a
pipeline run builds: every configured required key must be present. -/
def validateStateSnapshot (requiredStateKeys : List String) : Bool :=
  requiredStateKeys.all fun key => snapshotKeys.contains key

/-- `AgenticVideoRAGEngine.run`: drive the seven stages in order over the
engine stores, validate the final state snapshot, and emit the result
bundle together with the post-run stores. -/
def AgenticVideoRAGEngine.run (cfg : RuntimeConfig) (ports : Ports)
    (request : QueryRequest) (st : PipelineStores) :
    Except String (PipelineResult × PipelineStores) :=
  let s1 := stage1ActivityIngestion ports request st
  let s2 := stage2TemporalRetrieval ports cfg request s1.1 s1.2
  let s3 := stage3SpatialGrounding cfg request s2.1 s2.2
  let entityLinks := stage4EntityResolution cfg request s3.1
  let temporalSegments := stage5TemporalLocalization cfg request s3.1
  let s6 := stage6GraphMemory cfg.spec_version s3.2.frame_index s3.1 entityLinks
    temporalSegments s3.2.graph_nodes s3.2.graph_edges s3.2.evidence_registry
  let st6 := { s3.2 with
    graph_nodes := s6.2.1
    graph_edges := s6.2.2.1
    evidence_registry := s6.2.2.2 }
  let synthesis := MultimodalSynthesizerAdapter.synthesize request.query_text
    (stage7Claims s6.1.2)
  if validateStateSnapshot cfg.required_state_keys then
    .ok ({ query_id := request.query_id
           query_text := request.query_text
           active_windows := s1.1
           validated_windows := s2.1
           tracklets := s3.1
           entity_links := entityLinks
           temporal_segments := temporalSegments
           graph_nodes := s6.1.1
           graph_edges := s6.1.2
           synthesis := synthesis
           cache_hits := st6.cache_hits
           cache_misses := st6.cache_misses }, st6)
  else .error "state snapshot missing required keys"

/-! ### A concrete minimal fixture (config, ports, request) used to
exercise `run` twice on one engine.  The port functions are constant, so
every branch the run takes below is independent of the unmodelled
hash/similarity values: the fixture has a single window, which stage 2
selects whatever its score is. -/

/-- Constant stand-in ports for the deterministic adapters. -/
def demoPorts : Ports := ⟨fun _ => [0], fun _ _ => 0⟩

/-- A small valid runtime configuration (thresholds as in
`config/spec/groundtruth.yaml`-style setups; `hysteresis_high >
hysteresis_low`). -/
def demoCfg : RuntimeConfig :=
  { spec_version := "v1"
    retrieval := ⟨10, 5, 1/2⟩
    grounding := ⟨6/10, 1⟩
    reid := ⟨5⟩
    temporal_localization := ⟨3, 7/10, 2/10⟩
    required_state_keys := snapshotKeys }

/-- One static exterior clip with a single frame showing a person and an
SUV. -/
def demoClip : Clip :=
  { clip_id := "c1"
    camera_id := "camA"
    camera_type := "static"
    location := "exterior"
    duration_seconds := 1
    frames := [⟨0, ["person_a", "suv_x"], [], 1/10⟩]
    metadata := ⟨false, none⟩ }

/-- The query request issued twice against one engine. -/
def demoRequest : QueryRequest :=
  { query_id := "q1"
    query_text := "person suv"
    clips := [demoClip]
    camera_topology := [] }

/-- Run `demoRequest` twice through one fresh engine (the second run sees
the first run's stores) and report the evidence-list length of every graph
edge of each run (`([], [])` if a run failed). -/
def demoRunTwiceEvidenceCounts : List Nat × List Nat :=
  match AgenticVideoRAGEngine.run demoCfg demoPorts demoRequest emptyStores with
  | .error _ => ([], [])
  | .ok (r1, st1) =>
    match AgenticVideoRAGEngine.run demoCfg demoPorts demoRequest st1 with
    | .error _ => ([], [])
    | .ok (r2, _) =>
      (r1.graph_edges.map (·.evidence_refs.length),
        r2.graph_edges.map (·.evidence_refs.length))

/-! ### Specification-side predicates used by the claims -/

/-- The acceptance condition for one consecutive pair of the sorted
person group: same camera, or a declared neighbor, or an elapsed gap
within the travel budget. -/
def acceptPair (topology : List (String × List String)) (maxTravel : Int)
    (prev curr : Tracklet) : Prop :=
  prev.camera_id = curr.camera_id ∨
    curr.camera_id ∈ topoGet topology prev.camera_id ∨
    max 0 (curr.t_start - prev.t_end) ≤ maxTravel

instance (topology : List (String × List String)) (maxTravel : Int)
    (prev curr : Tracklet) : Decidable (acceptPair topology maxTravel prev curr) :=
  inferInstanceAs (Decidable (prev.camera_id = curr.camera_id ∨
    curr.camera_id ∈ topoGet topology prev.camera_id ∨
    max 0 (curr.t_start - prev.t_end) ≤ maxTravel))

/-- The lowercased labels of the tracklets of one entity type, in first
encounter order (the key order of the Python grouping dict). -/
def groupKeys (entityType : EntityType) (tracklets : List Tracklet) : List String :=
  distinctList ((tracklets.filter fun t => t.entity_type = entityType).map
    fun t => strToLower t.label)

/-! ### Small concrete fixtures used by witnesses -/

/-- A person tracklet on camera `camA`. -/
def wTrkPerson : Tracklet :=
  ⟨"TP", "c1", "camA", "w1", .person, "Person_A", 0, 2, 86/100, "overlay://c1/TP.json"⟩

/-- A person tracklet on camera `camB`, 48 seconds later. -/
def wTrkPersonB : Tracklet :=
  ⟨"TQ", "c2", "camB", "w2", .person, "person_a", 50, 52, 86/100, "overlay://c2/TQ.json"⟩

/-- An object tracklet sharing clip and window with `wTrkPerson`. -/
def wTrkObject : Tracklet :=
  ⟨"TO", "c1", "camA", "w1", .object, "suv_x", 0, 2, 88/100, "overlay://c1/TO.json"⟩

/-- Entity links as stage 4 would emit for the fixture tracklets. -/
def wLinkPerson : EntityLink := ⟨"PER_person_a", .person, "person_a", ["TP"], 87/100, true⟩

def wLinkObject : EntityLink := ⟨"OBJ_suv_x", .object, "suv_x", ["TO"], 83/100, true⟩

/-- A temporal segment for the person track of the fixture. -/
def wSeg : TemporalSegment := ⟨"S1", "c1", "camA", "TP", "tracked_activity", 0, 2, 35/100, []⟩

/-- The edges stage 6 builds from the fixture (one EXITS edge). -/
def wEdges : List GraphEdge :=
  (stage6GraphMemory "v1" [] [wTrkPerson, wTrkObject] [wLinkObject, wLinkPerson] [wSeg]
    [] [] []).1.2

/-- The first fixture edge. -/
def wEdge : GraphEdge := wEdges.headD ⟨"", "", "", "", 0, 0, "", 0, []⟩

/-- A tracklet covering `[0, 2]` with full mask confidence (used to
exercise `localize` on a concrete score curve). -/
def wTrkC2 : Tracklet := ⟨"T", "c", "cam", "w", .person, "p", 0, 2, 1, "u"⟩

/-- A clip whose three frames score `1.0, 0.3, 0.3` against the query
`"run"`. -/
def wClipC2 : Clip :=
  ⟨"c", "cam", "static", "exterior", 3,
    [⟨0, [], ["run"], 0⟩, ⟨1, [], ["jump"], 0⟩, ⟨2, [], ["jump"], 0⟩], ⟨false, none⟩⟩

/-- Stage-2 scored candidates for the fallback analysis: both below a
`0.5` threshold, on two distinct clips, in descending order. -/
def wVwA : ValidatedWindow := ⟨"w1", "A", "cam", 0, 0, 3/10, "q"⟩

def wVwB : ValidatedWindow := ⟨"w2", "B", "cam", 0, 0, 2/10, "q"⟩

/-- The same two windows rescored under a decomposed sub-query. -/
def wVwA1 : ValidatedWindow := ⟨"w1", "A", "cam", 0, 0, 3/10, "sub"⟩

def wVwB1 : ValidatedWindow := ⟨"w2", "B", "cam", 0, 0, 1/10, "sub"⟩

def wScoredC3 : List ValidatedWindow := [wVwA, wVwB]

/-- The membership predicate of one label group (specification side): a
tracklet belongs to the group `lab` of `entityType` when its type matches
and its lowercased label is `lab`. -/
def groupPred (entityType : EntityType) (lab : String) (t : Tracklet) : Bool :=
  decide (t.entity_type = entityType) && decide (strToLower t.label = lab)

/-- Specification-side canonical form of the label grouping: one entry
per key (in first-encounter order) holding exactly the matching tracklets
in scan order. -/
def groupCanon (entityType : EntityType) (tracklets : List Tracklet) :
    List (String × List Tracklet) :=
  (groupKeys entityType tracklets).map fun k =>
    (k, tracklets.filter (groupPred entityType k))

/-- Camera adjacency used by the resolution witnesses: `camA → camB`. -/
def wTopo : List (String × List String) := [("camA", ["camB"])]

/-- Specification side: the integers of `[s, e]` in order. -/
def intRange (s e : Int) : List Int :=
  (List.range (e + 1 - s).toNat).map fun i => s + Int.ofNat i

/-- Specification side: all integers covered by a span list, in order. -/
def spansJoin (spans : List (Int × Int)) : List Int :=
  (spans.map fun p => intRange p.1 p.2).flatten

/-- Specification side: `p` is a maximal integer-adjacent run of the
timestamp multiset `ts` — a non-empty interval all of whose integers occur
in `ts` and that can be extended in neither direction. -/
def isMaximalRun (ts : List Int) (p : Int × Int) : Prop :=
  p.1 ≤ p.2 ∧ (∀ k, p.1 ≤ k → k ≤ p.2 → k ∈ ts) ∧ (p.1 - 1) ∉ ts ∧ (p.2 + 1) ∉ ts

/-- A clip whose meaningful timestamps under the `cv_state` route are
`1, 2, 5` (two activity runs). -/
def wClipC7 : Clip :=
  ⟨"c7", "cam7", "static", "exterior", 6,
    [⟨0, [], [], 0⟩, ⟨1, ["person_x"], [], 0⟩, ⟨2, ["person_x"], [], 0⟩,
      ⟨3, [], [], 0⟩, ⟨5, ["suv_y"], [], 0⟩], ⟨false, none⟩⟩

/-! ## Claim theorems -/

/-- Claim C4 counterexample: it is not the case that every stage except
stage 1 permits a self-loop — `stage_7` has an empty successor set, so
`can_transition stage_7 stage_7` is `false`. -/
theorem claim_C4_counterexample :
    ¬ ((∀ s : StageId, s ≠ StageId.stage_1 → can_transition s s = true) ∧
      can_transition StageId.stage_1 StageId.stage_1 = false) := by
  decide

/-- Claim C4 (amended): in the static transition graph a stage permits a
self-loop exactly when it is neither stage 1 nor stage 7; stages 2
through 6 self-loop, stages 1 and 7 do not. -/
theorem claim_C4_self_loops :
    ∀ s : StageId,
      can_transition s s = decide (s ≠ StageId.stage_1 ∧ s ≠ StageId.stage_7) := by
  decide

/-- Claim C5: for every pair of stages not permitted by the static graph,
`OrchestrationRuntime.transition` raises and leaves the transition log
exactly unchanged; for every permitted pair it appends exactly one
`TransitionEvent` recording the pair and the reason and returns the next
stage. -/
theorem claim_C5_transition :
    ∀ (events : List TransitionEvent) (cur next : StageId) (reason : String),
      (can_transition cur next = true →
        OrchestrationRuntime.transition events cur next reason =
          (Except.ok next, events ++ [⟨cur, next, reason⟩])) ∧
      (can_transition cur next = false →
        OrchestrationRuntime.transition events cur next reason =
          (Except.error ("invalid transition " ++ stageName cur ++ " -> " ++ stageName next),
            events)) := by
  intro events cur next reason
  constructor <;> intro h <;> simp [OrchestrationRuntime.transition, h]

/-- Claim C5 witness: the legal transition `stage_1 → stage_2` appends one
event; the illegal `stage_1 → stage_3` fails with the log untouched. -/
theorem claim_C5_witness :
    OrchestrationRuntime.transition [] StageId.stage_1 StageId.stage_2 "forward" =
      (Except.ok StageId.stage_2, [⟨StageId.stage_1, StageId.stage_2, "forward"⟩]) ∧
    OrchestrationRuntime.transition [] StageId.stage_1 StageId.stage_3 "skip" =
      (Except.error "invalid transition stage_1 -> stage_3", []) :=
  ⟨(claim_C5_transition [] StageId.stage_1 StageId.stage_2 "forward").1 (by decide),
    (claim_C5_transition [] StageId.stage_1 StageId.stage_3 "skip").2 (by decide)⟩

/-- Claim C9 (code bug demonstration): running the same request twice
through one fresh engine does not produce identical stage outputs — the
evidence registry persists between runs and every edge stores the
registry's accumulated tuple, so run 1's single EXITS edge carries one
evidence reference while run 2's carries two. -/
theorem claim_C9_two_runs :
    demoRunTwiceEvidenceCounts = ([1], [2]) ∧ ([1] : List Nat) ≠ [2] := by
  decide

/-- Claim C10: `QueryDecomposer.decompose` always returns a non-empty
list whose first element is the original query text, so the stage-3
variant index `min(attempt, len(variants) - 1)` is always in bounds. -/
theorem claim_C10_decompose_safety :
    ∀ queryText : String,
      QueryDecomposer.decompose queryText ≠ [] ∧
      (QueryDecomposer.decompose queryText).head? = some queryText ∧
      ∀ attempt : Nat,
        min attempt ((QueryDecomposer.decompose queryText).length - 1) <
          (QueryDecomposer.decompose queryText).length := by
  intro q
  have h : ∃ rest, QueryDecomposer.decompose q = q :: rest := by
    by_cases h :
      ((strSplitOn (strReplace q "," " and ") " and ").map strTrim).filter (· ≠ "") = []
    · exact ⟨[], by simp only [QueryDecomposer.decompose]; rw [if_pos h]⟩
    · exact ⟨_, by simp only [QueryDecomposer.decompose]; rw [if_neg h]⟩
  obtain ⟨rest, h⟩ := h
  rw [h]
  refine ⟨by simp, rfl, fun attempt => ?_⟩
  simp only [List.length_cons]
  omega

/-- Claim C2 counterexample: on the concrete score curve `1.0, 0.3, 0.3`
(thresholds `0.7`/`0.2`) the single extracted span has mean `8/15`, but the
segment's confidence is the rounded `0.533` — the mean itself does not
become the confidence. -/
theorem claim_C2_counterexample :
    extract_spans (localizeTimestamps wTrkC2 wClipC2)
        (localizeSmoothedScores wTrkC2 wClipC2 "run" 1) (7/10) (2/10) = [(0, 2, 8/15)] ∧
    (TemporalGroundingAdapter.localize wTrkC2 wClipC2 "run" 1 (7/10) (2/10) 0).confidence =
      533/1000 ∧
    (533/1000 : ℚ) ≠ 8/15 := by
  refine ⟨by decide, by decide, by decide⟩

/-- Claim C2 (amended): with `hysteresis_high > hysteresis_low`, the span
loop opens a span exactly when a score reaches `high` outside a span
(a score equal to `high` opens), keeps it open exactly while scores stay
at or above `low` (a score equal to `low` keeps it open), closes it only
on a score strictly below `low`, and the first extracted span's time range
becomes the segment's range with its mean score, rounded to three
decimals, as the confidence. -/
theorem claim_C2_hysteresis (high low : ℚ) (_hhl : low < high) :
    (∀ (ts : Int) (score : ℚ) rest curStart curScores spans, high ≤ score →
      extractSpansLoop high low ((ts, score) :: rest) false curStart curScores spans =
        extractSpansLoop high low rest true ts [score] spans) ∧
    (∀ (ts : Int) (score : ℚ) rest curStart curScores spans, score < high →
      extractSpansLoop high low ((ts, score) :: rest) false curStart curScores spans =
        extractSpansLoop high low rest false curStart curScores spans) ∧
    (∀ (ts : Int) (score : ℚ) rest curStart curScores spans, low ≤ score →
      extractSpansLoop high low ((ts, score) :: rest) true curStart curScores spans =
        extractSpansLoop high low rest true curStart (curScores ++ [score]) spans) ∧
    (∀ (ts : Int) (score : ℚ) rest curStart curScores spans, score < low →
      extractSpansLoop high low ((ts, score) :: rest) true curStart curScores spans =
        extractSpansLoop high low rest false curStart []
          (spans ++ [(curStart, ts, listMean curScores)])) ∧
    (∀ tracklet clip queryText smoothingWindowSize maskFloor s e conf restSpans,
      extract_spans (localizeTimestamps tracklet clip)
          (localizeSmoothedScores tracklet clip queryText smoothingWindowSize) high low =
        (s, e, conf) :: restSpans →
      (TemporalGroundingAdapter.localize tracklet clip queryText smoothingWindowSize
          high low maskFloor).t_start = s ∧
      (TemporalGroundingAdapter.localize tracklet clip queryText smoothingWindowSize
          high low maskFloor).t_end = e ∧
      (TemporalGroundingAdapter.localize tracklet clip queryText smoothingWindowSize
          high low maskFloor).confidence = round3 conf) := by
  refine ⟨?_, ?_, ?_, ?_, ?_⟩
  · intro ts score rest curStart curScores spans h
    simp [extractSpansLoop, h]
  · intro ts score rest curStart curScores spans h
    simp [extractSpansLoop, not_le.mpr h]
  · intro ts score rest curStart curScores spans h
    simp [extractSpansLoop, h]
  · intro ts score rest curStart curScores spans h
    simp [extractSpansLoop, not_le.mpr h]
  · intro tracklet clip queryText smoothingWindowSize maskFloor s e conf restSpans hspans
    simp only [TemporalGroundingAdapter.localize]
    rw [hspans]
    simp

/-- Claim C2 witness: concrete instances of the amended hysteresis
behaviour at thresholds `0.7`/`0.2` — a score of exactly `0.7` opens a
span, exactly `0.2` keeps it open, `0.1` closes it, and the first span of
the `wTrkC2`/`wClipC2` curve fixes the segment range `[0, 2]` with
confidence `round3 (8/15)`. -/
theorem claim_C2_witness :
    extractSpansLoop (7/10) (2/10) [((0 : Int), (7/10 : ℚ))] false 0 [] [] =
      extractSpansLoop (7/10) (2/10) [] true 0 [7/10] [] ∧
    extractSpansLoop (7/10) (2/10) [((1 : Int), (2/10 : ℚ))] true 0 [7/10] [] =
      extractSpansLoop (7/10) (2/10) [] true 0 [7/10, 2/10] [] ∧
    extractSpansLoop (7/10) (2/10) [((1 : Int), (1/10 : ℚ))] true 0 [7/10] [] =
      extractSpansLoop (7/10) (2/10) [] false 0 [] [(0, 1, listMean [7/10])] ∧
    (TemporalGroundingAdapter.localize wTrkC2 wClipC2 "run" 1 (7/10) (2/10) 0).t_start = 0 ∧
    (TemporalGroundingAdapter.localize wTrkC2 wClipC2 "run" 1 (7/10) (2/10) 0).t_end = 2 ∧
    (TemporalGroundingAdapter.localize wTrkC2 wClipC2 "run" 1 (7/10) (2/10) 0).confidence =
      round3 (8/15) := by
  have h := claim_C2_hysteresis (7/10) (2/10) (by norm_num : (2/10 : ℚ) < 7/10)
  have h5 := h.2.2.2.2 wTrkC2 wClipC2 "run" 1 0 0 2 (8/15) [] (by decide)
  exact ⟨h.1 0 (7/10) [] 0 [] [] (by norm_num),
    h.2.2.1 1 (2/10) [] 0 [7/10] [] (by norm_num),
    h.2.2.2.1 1 (1/10) [] 0 [7/10] [] (by norm_num),
    h5.1, h5.2.1, h5.2.2⟩

/-- Getting a track's refs right after appending one yields the old refs
plus the appended one. -/
theorem registryGet_registryAppend (reg : List (String × List EvidenceRef))
    (trackId : String) (ref : EvidenceRef) :
    registryGet (registryAppend reg trackId ref) trackId =
      registryGet reg trackId ++ [ref] := by
  induction reg with
  | nil => simp [registryAppend, registryGet, assocGet]
  | cons kv rest ih =>
    by_cases h : kv.1 = trackId
    · simp [registryAppend, registryGet, assocGet, h]
    · simpa [registryAppend, registryGet, assocGet, h] using ih

/-- The evidence tuple returned for an edge is never empty: it always
contains at least the reference just appended. -/
theorem buildEvidenceRefs_ne_nil (specVersion : String)
    (frameIndex : List KeyframeRecord) (reg : List (String × List EvidenceRef))
    (track : Tracklet) (segment : TemporalSegment) :
    (buildEvidenceRefsForTrack specVersion frameIndex reg track segment).1 ≠ [] := by
  simp [buildEvidenceRefsForTrack, registryGet_registryAppend]

/-- Fold invariants survive `List.foldl`. -/
theorem foldl_invariant {α : Type _} {β : Type _} (f : α → β → α) (inv : α → Prop)
    (hf : ∀ a b, inv a → inv (f a b)) :
    ∀ (l : List β) (a : α), inv a → inv (l.foldl f a)
  | [], _, h => h
  | b :: l, a, h => foldl_invariant f inv hf l (f a b) (hf a b h)

/-- One EXITS step only ever appends an edge with non-empty evidence. -/
theorem stage6ExitsStep_evidence (specVersion : String)
    (frameIndex : List KeyframeRecord) (tracklets : List Tracklet)
    (entityLinks : List EntityLink)
    (acc : List GraphEdge × List (String × GraphEdge) × List (String × List EvidenceRef))
    (segment : TemporalSegment)
    (h : ∀ e ∈ acc.1, e.evidence_refs ≠ []) :
    ∀ e ∈ (stage6ExitsStep specVersion frameIndex tracklets entityLinks acc segment).1,
      e.evidence_refs ≠ [] := by
  intro e he
  simp only [stage6ExitsStep] at he
  repeat' split at he
  all_goals
    first
    | exact h e he
    | · simp only [List.mem_append, List.mem_singleton] at he
        rcases he with he | rfl
        · exact h e he
        · exact buildEvidenceRefs_ne_nil _ _ _ _ _

/-- One MOVES_TO step only ever appends edges with non-empty evidence. -/
theorem stage6MovesStep_evidence (specVersion : String)
    (frameIndex : List KeyframeRecord) (tracklets : List Tracklet)
    (acc : List GraphEdge × List (String × GraphEdge) × List (String × List EvidenceRef))
    (link : EntityLink)
    (h : ∀ e ∈ acc.1, e.evidence_refs ≠ []) :
    ∀ e ∈ (stage6MovesStep specVersion frameIndex tracklets acc link).1,
      e.evidence_refs ≠ [] := by
  intro e he
  simp only [stage6MovesStep] at he
  split at he
  · exact h e he
  · revert he
    refine foldl_invariant _ (fun a => ∀ e ∈ a.1, e.evidence_refs ≠ []) ?_ _ acc h e
    intro a pc ha e2 he2
    simp only [List.mem_append, List.mem_singleton] at he2
    rcases he2 with he2 | rfl
    · exact ha e2 he2
    · exact buildEvidenceRefs_ne_nil _ _ _ _ _

/-- Claim C6: every edge stage 6 emits carries a non-empty evidence list;
every claim the synthesizer keeps carries a non-empty evidence list; the
redacted-claim count is exactly the number of input claims with empty
evidence; and for the claims stage 7 builds from stage-6 edges that count
is `0`. -/
theorem claim_C6_evidence (specVersion : String) (frameIndex : List KeyframeRecord)
    (tracklets : List Tracklet) (entityLinks : List EntityLink)
    (temporalSegments : List TemporalSegment) (nodes0 : List (String × GraphNode))
    (edges0 : List (String × GraphEdge)) (reg0 : List (String × List EvidenceRef))
    (queryText : String) (claims : List ClaimRecord) :
    (∀ edge ∈ (stage6GraphMemory specVersion frameIndex tracklets entityLinks
        temporalSegments nodes0 edges0 reg0).1.2, edge.evidence_refs ≠ []) ∧
    (∀ c ∈ (MultimodalSynthesizerAdapter.synthesize queryText claims).claims,
      c.evidence_refs ≠ []) ∧
    (MultimodalSynthesizerAdapter.synthesize queryText claims).redacted_claim_count =
      (claims.filter fun c => c.evidence_refs = []).length ∧
    (MultimodalSynthesizerAdapter.synthesize queryText
      (stage7Claims (stage6GraphMemory specVersion frameIndex tracklets entityLinks
        temporalSegments nodes0 edges0 reg0).1.2)).redacted_claim_count = 0 := by
  have hrepr : (stage6GraphMemory specVersion frameIndex tracklets entityLinks
      temporalSegments nodes0 edges0 reg0).1.2 =
      (entityLinks.foldl (stage6MovesStep specVersion frameIndex tracklets)
        (temporalSegments.foldl (stage6ExitsStep specVersion frameIndex tracklets entityLinks)
          ([], edges0, reg0))).1 := rfl
  have hedges : ∀ edge ∈ (stage6GraphMemory specVersion frameIndex tracklets entityLinks
      temporalSegments nodes0 edges0 reg0).1.2, edge.evidence_refs ≠ [] := by
    rw [hrepr]
    exact foldl_invariant _ (fun a => ∀ e ∈ a.1, e.evidence_refs ≠ [])
      (fun a link ha => stage6MovesStep_evidence specVersion frameIndex tracklets a link ha)
      entityLinks _
      (foldl_invariant _ (fun a => ∀ e ∈ a.1, e.evidence_refs ≠ [])
        (fun a seg ha => stage6ExitsStep_evidence specVersion frameIndex tracklets
          entityLinks a seg ha)
        temporalSegments ([], edges0, reg0) (fun e he => absurd he (List.not_mem_nil e)))
  have hsynthKeep : ∀ cl : List ClaimRecord,
      ∀ c ∈ (MultimodalSynthesizerAdapter.synthesize queryText cl).claims,
        c.evidence_refs ≠ [] := by
    intro cl c hc
    simp only [MultimodalSynthesizerAdapter.synthesize] at hc
    split at hc
    · exact absurd hc (List.not_mem_nil c)
    · simpa using (List.mem_filter.mp hc).2
  have hsynthCount : ∀ cl : List ClaimRecord,
      (MultimodalSynthesizerAdapter.synthesize queryText cl).redacted_claim_count =
        (cl.filter fun c => c.evidence_refs = []).length := by
    intro cl
    simp only [MultimodalSynthesizerAdapter.synthesize]
    split <;> rfl
  refine ⟨hedges, hsynthKeep claims, hsynthCount claims, ?_⟩
  rw [hsynthCount]
  rw [List.length_eq_zero, List.filter_eq_nil_iff]
  intro c hc
  obtain ⟨edge, hedge, rfl⟩ := List.mem_map.mp hc
  simpa using hedges edge hedge

/-- Claim C6 witness: the single EXITS edge stage 6 builds from the
concrete fixture carries a non-empty evidence list. -/
theorem claim_C6_witness : wEdge.evidence_refs ≠ [] :=
  (claim_C6_evidence "v1" [] [wTrkPerson, wTrkObject] [wLinkObject, wLinkPerson] [wSeg]
    [] [] [] "" []).1 wEdge (by decide)

/-- Claim C3 counterexample: with every full-query score below the `0.5`
threshold but a non-empty sub-query rescoring, the unconditionally
retained best sub-query match makes the validated list non-empty, so the
best-per-clip fallback never runs: clip `B`'s best window is absent from
the validated list and from the final selection. -/
theorem claim_C3_counterexample :
    (wScoredC3.all fun w => decide (w.confidence < 1/2)) = true ∧
    wVwB ∈ bestByClip wScoredC3 ∧
    stage2Validated (1/2) wScoredC3 [[wVwA1, wVwB1]] = [wVwA1] ∧
    wVwB ∉ stage2Validated (1/2) wScoredC3 [[wVwA1, wVwB1]] ∧
    ((stage2SelectFrom (1/2) 5 wScoredC3 [[wVwA1, wVwB1]]).all
      fun v => decide (v.clip_id ≠ "B")) = true := by
  refine ⟨by decide, by decide, by decide, by decide, by decide⟩

/-- Membership in the `best_by_clip` fold result comes from the
accumulator or the scanned list. -/
theorem bestByClipGo_mem :
    ∀ (l acc : List ValidatedWindow), ∀ v ∈ l.foldl bestByClipStep acc,
      v ∈ acc ∨ v ∈ l := by
  intro l
  induction l with
  | nil => intro acc v hv; exact Or.inl hv
  | cons x xs ih =>
    intro acc v hv
    rcases ih (bestByClipStep acc x) v hv with h | h
    · unfold bestByClipStep at h
      split at h
      · exact Or.inl h
      · rcases List.mem_append.mp h with h | h
        · exact Or.inl h
        · exact Or.inr (List.mem_cons.mpr (Or.inl (List.mem_singleton.mp h)))
    · exact Or.inr (List.mem_cons_of_mem x h)

/-- The `best_by_clip` fold only grows the accumulator. -/
theorem bestByClipGo_mono :
    ∀ (l acc : List ValidatedWindow), ∀ v ∈ acc, v ∈ l.foldl bestByClipStep acc := by
  intro l
  induction l with
  | nil => intro acc v hv; exact hv
  | cons x xs ih =>
    intro acc v hv
    refine ih (bestByClipStep acc x) v ?_
    unfold bestByClipStep
    split
    · exact hv
    · exact List.mem_append.mpr (Or.inl hv)

/-- Every scanned clip id ends up represented in the `best_by_clip`
fold result. -/
theorem bestByClipGo_covers :
    ∀ (l acc : List ValidatedWindow), ∀ w ∈ l,
      ∃ v ∈ l.foldl bestByClipStep acc, v.clip_id = w.clip_id := by
  intro l
  induction l with
  | nil => intro acc w hw; exact absurd hw (List.not_mem_nil w)
  | cons x xs ih =>
    intro acc w hw
    rcases List.mem_cons.mp hw with rfl | hw
    · by_cases hc : acc.any (fun e => e.clip_id = w.clip_id) = true
      · obtain ⟨e, he, heq⟩ := List.any_eq_true.mp hc
        refine ⟨e, bestByClipGo_mono xs (bestByClipStep acc w) e ?_, of_decide_eq_true heq⟩
        unfold bestByClipStep
        rw [if_pos hc]
        exact he
      · refine ⟨w, bestByClipGo_mono xs (bestByClipStep acc w) w ?_, rfl⟩
        unfold bestByClipStep
        rw [if_neg hc]
        exact List.mem_append.mpr (Or.inr (List.mem_singleton.mpr rfl))
    · exact ih (bestByClipStep acc x) w hw

/-- Once a clip id is covered by the accumulator, every fold-result
element with that clip id already belongs to the accumulator. -/
theorem bestByClipGo_stable :
    ∀ (l acc : List ValidatedWindow) (c : String), (∃ e ∈ acc, e.clip_id = c) →
      ∀ v ∈ l.foldl bestByClipStep acc, v.clip_id = c → v ∈ acc := by
  intro l
  induction l with
  | nil => intro acc c _ v hv _; exact hv
  | cons x xs ih =>
    intro acc c hcov v hv hvc
    obtain ⟨e, he, hec⟩ := hcov
    have hcov' : ∃ e ∈ bestByClipStep acc x, e.clip_id = c := by
      refine ⟨e, ?_, hec⟩
      unfold bestByClipStep
      split
      all_goals first | exact he | exact List.mem_append.mpr (Or.inl he)
    have hv' := ih (bestByClipStep acc x) c hcov' v hv hvc
    unfold bestByClipStep at hv'
    split at hv'
    · exact hv'
    · rcases List.mem_append.mp hv' with h | h
      · exact h
      · rename_i hnone
        obtain rfl := List.mem_singleton.mp h
        exact absurd (List.any_eq_true.mpr ⟨e, he, decide_eq_true (hvc ▸ hec)⟩) hnone

/-- In a confidence-descending scan, each `best_by_clip` representative
has maximal confidence among the scanned windows of its clip. -/
theorem bestByClipGo_max :
    ∀ (l acc : List ValidatedWindow),
      List.Pairwise (fun a b => b.confidence ≤ a.confidence) l →
      (∀ w ∈ l, ∀ v ∈ acc, v.clip_id = w.clip_id → w.confidence ≤ v.confidence) →
      ∀ v ∈ l.foldl bestByClipStep acc, ∀ w ∈ l, w.clip_id = v.clip_id →
        w.confidence ≤ v.confidence := by
  intro l
  induction l with
  | nil => intro acc _ _ v _ w hw; exact absurd hw (List.not_mem_nil w)
  | cons x xs ih =>
    intro acc hpw hcross v hv w hw hwc
    obtain ⟨hx, hxs⟩ := List.pairwise_cons.mp hpw
    have hcross' : ∀ w ∈ xs, ∀ u ∈ bestByClipStep acc x, u.clip_id = w.clip_id →
        w.confidence ≤ u.confidence := by
      intro w2 hw2 u hu huc
      unfold bestByClipStep at hu
      split at hu
      · exact hcross w2 (List.mem_cons_of_mem x hw2) u hu huc
      · rcases List.mem_append.mp hu with hu | hu
        · exact hcross w2 (List.mem_cons_of_mem x hw2) u hu huc
        · obtain rfl := List.mem_singleton.mp hu
          exact hx w2 hw2
    rcases List.mem_cons.mp hw with rfl | hw2
    · -- w is the head: the representative for its clip is at least as confident
      by_cases hc : acc.any (fun e => e.clip_id = w.clip_id) = true
      · have hstep : bestByClipStep acc w = acc := by unfold bestByClipStep; rw [if_pos hc]
        have hcov : ∃ e ∈ bestByClipStep acc w, e.clip_id = w.clip_id := by
          obtain ⟨e, he, heq⟩ := List.any_eq_true.mp hc
          exact ⟨e, by rw [hstep]; exact he, of_decide_eq_true heq⟩
        have hvacc := bestByClipGo_stable xs (bestByClipStep acc w) w.clip_id hcov v hv
          (by rw [hwc])
        rw [hstep] at hvacc
        exact hcross w (List.mem_cons_self w xs) v hvacc hwc.symm
      · have hcov : ∃ e ∈ bestByClipStep acc w, e.clip_id = w.clip_id := by
          refine ⟨w, ?_, rfl⟩
          unfold bestByClipStep
          rw [if_neg hc]
          exact List.mem_append.mpr (Or.inr (List.mem_singleton.mpr rfl))
        have hvstep := bestByClipGo_stable xs (bestByClipStep acc w) w.clip_id hcov v hv
          (by rw [hwc])
        unfold bestByClipStep at hvstep
        rw [if_neg hc] at hvstep
        rcases List.mem_append.mp hvstep with hvacc | hvx
        · exact absurd (List.any_eq_true.mpr ⟨v, hvacc, decide_eq_true hwc.symm⟩) hc
        · obtain rfl := List.mem_singleton.mp hvx
          exact le_refl _
    · exact ih (bestByClipStep acc x) hxs hcross' v hv w hw2 hwc

/-- Claim C3 (amended): the best-per-clip fallback runs exactly when the
validated list is still empty after both the full-query threshold filter
and the sub-query augmentation (which can retain windows even when
nothing passed under the full query); when it runs, the validated list
becomes the best-scoring window per distinct clip — one representative
per scanned clip, of maximal confidence for its clip. -/
theorem claim_C3_fallback (threshold : ℚ) (scored : List ValidatedWindow)
    (subScored : List (List ValidatedWindow))
    (hpw : List.Pairwise (fun a b => b.confidence ≤ a.confidence) scored)
    (hempty : subScored.foldl (stage2SubStep threshold)
        (scored.filter fun w => threshold ≤ w.confidence) = [])
    (hne : scored ≠ []) :
    stage2Validated threshold scored subScored = bestByClip scored ∧
    (∀ w ∈ scored, ∃ v ∈ bestByClip scored, v.clip_id = w.clip_id) ∧
    (∀ v ∈ bestByClip scored, v ∈ scored) ∧
    (∀ v ∈ bestByClip scored, ∀ w ∈ scored, w.clip_id = v.clip_id →
      w.confidence ≤ v.confidence) := by
  refine ⟨?_, ?_, ?_, ?_⟩
  · simp only [stage2Validated]
    rw [hempty]
    simp [hne]
  · exact fun w hw => bestByClipGo_covers scored [] w hw
  · intro v hv
    rcases bestByClipGo_mem scored [] v hv with h | h
    · exact absurd h (List.not_mem_nil v)
    · exact h
  · intro v hv w hw hwc
    exact bestByClipGo_max scored [] hpw
      (fun w2 _ u hu => absurd hu (List.not_mem_nil u)) v hv w hw hwc

/-- Claim C3 witness: with no sub-queries and both scored windows below
the threshold, the fallback fires and the validated list becomes the
best window per clip. -/
theorem claim_C3_witness :
    stage2Validated (1/2) wScoredC3 [] = bestByClip wScoredC3 :=
  (claim_C3_fallback (1/2) wScoredC3 [] (by decide) (by decide) (by decide)).1

/-- Membership in the first-occurrence dedup fold. -/
theorem distinctList_foldl_mem {α : Type _} [DecidableEq α] :
    ∀ (xs acc : List α) (y : α),
      y ∈ xs.foldl (fun acc x => if acc.contains x then acc else acc ++ [x]) acc ↔
        y ∈ acc ∨ y ∈ xs := by
  intro xs
  induction xs with
  | nil => intro acc y; simp
  | cons x xs ih =>
    intro acc y
    rw [List.foldl_cons, ih]
    by_cases h : acc.contains x = true
    · rw [if_pos h]
      have hx : x ∈ acc := by simpa using h
      constructor
      · rintro (h1 | h1)
        · exact Or.inl h1
        · exact Or.inr (List.mem_cons_of_mem x h1)
      · rintro (h1 | h1)
        · exact Or.inl h1
        · rcases List.mem_cons.mp h1 with rfl | h1
          · exact Or.inl hx
          · exact Or.inr h1
    · rw [if_neg h]
      simp only [List.mem_append, List.mem_singleton, List.mem_cons]
      tauto

/-- `distinctList` preserves membership. -/
theorem distinctList_mem {α : Type _} [DecidableEq α] (xs : List α) (y : α) :
    y ∈ distinctList xs ↔ y ∈ xs := by
  unfold distinctList
  rw [distinctList_foldl_mem]
  simp

/-- The first-occurrence dedup fold keeps the accumulator duplicate-free. -/
theorem distinctList_foldl_nodup {α : Type _} [DecidableEq α] :
    ∀ (xs acc : List α), acc.Nodup →
      (xs.foldl (fun acc x => if acc.contains x then acc else acc ++ [x]) acc).Nodup := by
  intro xs
  induction xs with
  | nil => intro acc h; exact h
  | cons x xs ih =>
    intro acc h
    rw [List.foldl_cons]
    by_cases hc : acc.contains x = true
    · rw [if_pos hc]; exact ih acc h
    · rw [if_neg hc]
      refine ih (acc ++ [x]) ?_
      refine List.Nodup.append h (List.nodup_singleton x) ?_
      intro a ha hax
      obtain rfl := List.mem_singleton.mp hax
      exact hc (by simpa using ha)

/-- `distinctList` output has no duplicates. -/
theorem distinctList_nodup {α : Type _} [DecidableEq α] (xs : List α) :
    (distinctList xs).Nodup :=
  distinctList_foldl_nodup xs [] List.nodup_nil

/-- Appending one element to the scanned list extends the dedup by a
single conditional append. -/
theorem distinctList_concat {α : Type _} [DecidableEq α] (xs : List α) (x : α) :
    distinctList (xs ++ [x]) =
      if (distinctList xs).contains x then distinctList xs else distinctList xs ++ [x] := by
  unfold distinctList
  rw [List.foldl_append]
  rfl

/-- `groupInsert` on the canonical map form: the (unique) matching entry
receives the new tracklet, or a fresh singleton entry is appended. -/
theorem groupInsert_canon (f : String → List Tracklet) (t : Tracklet) (k0 : String) :
    ∀ ks : List String, ks.Nodup →
      groupInsert (ks.map fun k => (k, f k)) k0 t =
        if k0 ∈ ks then
          ks.map fun k => (k, if k = k0 then f k ++ [t] else f k)
        else (ks.map fun k => (k, f k)) ++ [(k0, [t])] := by
  intro ks
  induction ks with
  | nil => intro _; simp [groupInsert]
  | cons k ks ih =>
    intro hnd
    obtain ⟨hk, hnd'⟩ := List.nodup_cons.mp hnd
    by_cases hkk : k = k0
    · subst hkk
      rw [if_pos (List.mem_cons_self k ks), List.map_cons, List.map_cons]
      simp only [groupInsert, if_true]
      congr 1
      refine List.map_congr_left ?_
      intro a ha
      rw [if_neg (show ¬ a = k from fun h => hk (h ▸ ha))]
    · rw [List.map_cons]
      simp only [groupInsert]
      rw [if_neg hkk, ih hnd']
      by_cases hmem : k0 ∈ ks
      · rw [if_pos hmem, if_pos (List.mem_cons_of_mem k hmem), List.map_cons, if_neg hkk]
      · rw [if_neg hmem,
          if_neg (fun h => (List.mem_cons.mp h).elim (fun h2 => hkk h2.symm) hmem)]
        rfl

/-- Appending one tracklet extends each per-key filter by at most that
tracklet. -/
theorem groupPred_filter_append (et : EntityType) (l : List Tracklet) (t : Tracklet)
    (hty : t.entity_type = et) (k : String) :
    (l ++ [t]).filter (groupPred et k) =
      l.filter (groupPred et k) ++ (if k = strToLower t.label then [t] else []) := by
  rw [List.filter_append]
  congr 1
  by_cases hk : k = strToLower t.label
  · rw [if_pos hk]
    simp [groupPred, hty, hk]
  · rw [if_neg hk]
    have hd : decide (strToLower t.label = k) = false :=
      decide_eq_false fun h => hk h.symm
    simp [groupPred, hty, hd]

/-- A key outside the scanned key list has an empty group. -/
theorem groupPred_filter_eq_nil (et : EntityType) (l : List Tracklet) (k : String)
    (hk : k ∉ groupKeys et l) : l.filter (groupPred et k) = [] := by
  rw [List.filter_eq_nil_iff]
  intro t ht hpred
  apply hk
  unfold groupKeys
  rw [distinctList_mem]
  simp only [groupPred, Bool.and_eq_true, decide_eq_true_eq] at hpred
  exact List.mem_map.mpr ⟨t, List.mem_filter.mpr ⟨ht, by simp [hpred.1]⟩, hpred.2⟩

/-- The Python label-grouping dict equals its canonical specification:
one entry per lowercased label in first-encounter order, holding exactly
the matching tracklets in scan order. -/
theorem groupByLabel_eq_canon (et : EntityType) :
    ∀ l : List Tracklet, groupByLabel et l = groupCanon et l := by
  intro l
  induction l using List.reverseRecOn with
  | nil => rfl
  | append_singleton l t ih =>
    have hstep : groupByLabel et (l ++ [t]) =
        (if t.entity_type = et then groupInsert (groupByLabel et l) (strToLower t.label) t
          else groupByLabel et l) := by
      unfold groupByLabel
      rw [List.foldl_append]
      rfl
    by_cases hty : t.entity_type = et
    · rw [hstep, if_pos hty, ih]
      have hkeys : groupKeys et (l ++ [t]) =
          if (groupKeys et l).contains (strToLower t.label) then groupKeys et l
          else groupKeys et l ++ [strToLower t.label] := by
        unfold groupKeys
        rw [List.filter_append]
        have : List.filter (fun t2 => decide (t2.entity_type = et)) [t] = [t] := by
          simp [hty]
        rw [this, List.map_append]
        exact distinctList_concat _ _
      have hnd : (groupKeys et l).Nodup := distinctList_nodup _
      rw [groupCanon, groupInsert_canon (fun k => l.filter (groupPred et k)) t
        (strToLower t.label) (groupKeys et l) hnd]
      by_cases hmem : strToLower t.label ∈ groupKeys et l
      · rw [if_pos hmem]
        unfold groupCanon
        rw [hkeys, if_pos (by simpa using hmem)]
        refine (List.map_congr_left ?_).symm
        intro k hkmem
        rw [groupPred_filter_append et l t hty k]
        by_cases hk : k = strToLower t.label
        · rw [if_pos hk, if_pos hk]
        · rw [if_neg hk, if_neg hk, List.append_nil]
      · rw [if_neg hmem]
        unfold groupCanon
        rw [hkeys, if_neg (by simpa using hmem), List.map_append]
        congr 1
        · refine (List.map_congr_left ?_).symm
          intro k hkmem
          rw [groupPred_filter_append et l t hty k,
            if_neg (show ¬ k = strToLower t.label from fun h => hmem (h ▸ hkmem)),
            List.append_nil]
        · simp only [List.map_cons, List.map_nil]
          rw [groupPred_filter_append et l t hty (strToLower t.label), if_pos rfl,
            groupPred_filter_eq_nil et l (strToLower t.label) hmem]
          rfl
    · rw [hstep, if_neg hty, ih]
      unfold groupCanon
      have hkeys : groupKeys et (l ++ [t]) = groupKeys et l := by
        unfold groupKeys
        rw [List.filter_append]
        have : List.filter (fun t2 => decide (t2.entity_type = et)) [t] = [] := by
          simp [hty]
        rw [this, List.append_nil]
      rw [hkeys]
      refine List.map_congr_left ?_
      intro k hkmem
      have : (l ++ [t]).filter (groupPred et k) = l.filter (groupPred et k) := by
        rw [List.filter_append]
        have : List.filter (groupPred et k) [t] = [] := by
          simp [groupPred, hty]
        rw [this, List.append_nil]
      rw [this]

/-- Stable insertion produces a permutation of consing. -/
theorem insertSorted_perm {α : Type _} (lt : α → α → Bool) (x : α) :
    ∀ l : List α, List.Perm (insertSorted lt x l) (x :: l) := by
  intro l
  induction l with
  | nil => simp [insertSorted]
  | cons y ys ih =>
    unfold insertSorted
    split
    · exact ((ih.cons y).trans (List.Perm.swap x y ys))
    · exact List.Perm.refl _

/-- The insertion sort permutes its input. -/
theorem sortListBy_perm {α : Type _} (lt : α → α → Bool) :
    ∀ l : List α, List.Perm (sortListBy lt l) l := by
  intro l
  induction l with
  | nil => exact List.Perm.refl _
  | cons x xs ih =>
    exact (insertSorted_perm lt x (sortListBy lt xs)).trans (ih.cons x)

/-- Insertion preserves sortedness (consecutive elements never strictly
descend) for an asymmetric strict order. -/
theorem insertSorted_chain' {α : Type _} (lt : α → α → Bool)
    (hasym : ∀ a b, lt a b = true → lt b a = false) (x : α) :
    ∀ l : List α, List.Chain' (fun a b => lt b a = false) l →
      List.Chain' (fun a b => lt b a = false) (insertSorted lt x l) := by
  intro l
  induction l with
  | nil => intro _; simp [insertSorted]
  | cons y ys ih =>
    intro hch
    rw [List.chain'_cons'] at hch
    obtain ⟨hy, hys⟩ := hch
    unfold insertSorted
    by_cases hlt : lt y x = true
    · rw [if_pos hlt, List.chain'_cons']
      refine ⟨?_, ih hys⟩
      intro b hb
      cases ys with
      | nil =>
        simp only [insertSorted, List.head?_cons, Option.mem_some_iff] at hb
        subst hb
        exact hasym y x hlt
      | cons z zs =>
        unfold insertSorted at hb
        by_cases hzx : lt z x = true
        · rw [if_pos hzx] at hb
          simp only [List.head?_cons, Option.mem_some_iff] at hb
          subst hb
          exact hy z (by simp)
        · rw [if_neg hzx] at hb
          simp only [List.head?_cons, Option.mem_some_iff] at hb
          subst hb
          exact hasym y x hlt
    · rw [if_neg hlt, List.chain'_cons']
      refine ⟨?_, ?_⟩
      · intro b hb
        simp only [List.head?_cons, Option.mem_some_iff] at hb
        subst hb
        exact Bool.eq_false_iff.mpr hlt
      · rw [List.chain'_cons']
        exact ⟨hy, hys⟩

/-- The insertion sort output never strictly descends. -/
theorem sortListBy_chain' {α : Type _} (lt : α → α → Bool)
    (hasym : ∀ a b, lt a b = true → lt b a = false) :
    ∀ l : List α, List.Chain' (fun a b => lt b a = false) (sortListBy lt l) := by
  intro l
  induction l with
  | nil => simp [sortListBy]
  | cons x xs ih => exact insertSorted_chain' lt hasym x (sortListBy lt xs) ih

/-- `charListLt` is asymmetric. -/
theorem charListLt_asymm : ∀ as bs : List Char,
    charListLt as bs = true → charListLt bs as = false := by
  intro as
  induction as with
  | nil =>
    intro bs h
    cases bs with
    | nil => simp [charListLt] at h
    | cons b bs2 => simp [charListLt]
  | cons a as2 ih =>
    intro bs h
    cases bs with
    | nil => simp [charListLt] at h
    | cons b bs2 =>
      unfold charListLt at h ⊢
      by_cases hab : a < b
      · rw [if_neg (lt_asymm hab), if_pos hab]
      · rw [if_neg hab] at h
        by_cases hba : b < a
        · rw [if_pos hba] at h
          exact absurd h (by simp)
        · rw [if_neg hba] at h
          rw [if_neg hba, if_neg hab]
          exact ih bs2 h

/-- `strLt` is asymmetric. -/
theorem strLt_asymm (a b : String) : strLt a b = true → strLt b a = false :=
  charListLt_asymm a.data b.data

/-- `trkKeyLt` (the `(t_start, camera_id)` sort key order) is
asymmetric. -/
theorem trkKeyLt_asymm (a b : Tracklet) : trkKeyLt a b = true → trkKeyLt b a = false := by
  intro h
  unfold trkKeyLt at h ⊢
  simp only [Bool.or_eq_true, Bool.and_eq_true, decide_eq_true_eq] at h
  rcases h with h | ⟨heq, hlt⟩
  · have h1 : decide (b.t_start < a.t_start) = false := decide_eq_false (lt_asymm h)
    have h2 : decide (b.t_start = a.t_start) = false :=
      decide_eq_false fun h2 => absurd h (h2 ▸ lt_irrefl _)
    rw [h1, h2]
    rfl
  · have h1 : decide (b.t_start < a.t_start) = false :=
      decide_eq_false (heq ▸ lt_irrefl _)
    have h2 : decide (b.t_start = a.t_start) = true := decide_eq_true heq.symm
    rw [h1, h2, strLt_asymm _ _ hlt]
    rfl

/-- Bool list `contains` agrees with membership (strings with the
default `BEq`). -/
theorem strList_contains_iff (l : List String) (s : String) :
    l.contains s = true ↔ s ∈ l :=
  List.elem_iff

/-- The break-at-first-violation pairwise walk of the person resolver
accepts a sorted group exactly when every consecutive pair satisfies the
topology/travel condition. -/
theorem personWalk_iff_chain' (topology : List (String × List String)) (maxTravel : Int) :
    ∀ l : List Tracklet, personWalk topology maxTravel l = true ↔
      List.Chain' (acceptPair topology maxTravel) l := by
  intro l
  induction l with
  | nil => simp [personWalk]
  | cons a l ih =>
    cases l with
    | nil => simp [personWalk]
    | cons b l2 =>
      rw [List.chain'_cons]
      unfold personWalk
      by_cases hcam : a.camera_id = b.camera_id
      · rw [if_pos hcam, ih]
        exact ⟨fun h => ⟨Or.inl hcam, h⟩, fun h => h.2⟩
      · rw [if_neg hcam]
        by_cases hrej : ¬ (topoGet topology a.camera_id).contains b.camera_id = true ∧
            maxTravel < max 0 (b.t_start - a.t_end)
        · rw [if_pos hrej]
          constructor
          · intro h; exact absurd h (by simp)
          · rintro ⟨hacc, -⟩
            exfalso
            rcases hacc with h1 | h1 | h1
            · exact hcam h1
            · exact hrej.1 ((strList_contains_iff _ _).mpr h1)
            · exact absurd h1 (not_le.mpr hrej.2)
        · rw [if_neg hrej, ih]
          constructor
          · intro h
            refine ⟨?_, h⟩
            rcases not_and_or.mp hrej with h1 | h1
            · exact Or.inr (Or.inl ((strList_contains_iff _ _).mp (not_not.mp h1)))
            · exact Or.inr (Or.inr (not_lt.mp h1))
          · exact fun h => h.2

/-- Claim C1: `ReIDResolver.resolve` emits the object links followed by
the person links; object tracklets are grouped by lowercased label into
unconditionally resolved links of confidence `0.83`; person tracklets are
grouped by lowercased label, each group is stably sorted by
`(t_start, camera_id)`, and the link is resolved exactly when every
consecutive pair of the sorted group is on the same camera, moves to a
declared neighbor camera, or has elapsed gap `max 0 (curr.t_start -
prev.t_end)` within the travel budget; a resolved person link carries
confidence `0.87`, an unresolved one `0.46`. -/
theorem claim_C1_resolver (tracklets : List Tracklet)
    (topology : List (String × List String)) (maxTravel : Int)
    (_hmax : 0 ≤ maxTravel) :
    ReIDResolver.resolve tracklets topology maxTravel =
      ReIDResolver.resolveObjectLinks tracklets ++
        ReIDResolver.resolvePersonLinks tracklets topology maxTravel ∧
    ReIDResolver.resolveObjectLinks tracklets =
      (groupKeys .object tracklets).map (fun lab =>
        mkObjectLink lab (tracklets.filter (groupPred .object lab))) ∧
    (∀ link ∈ ReIDResolver.resolveObjectLinks tracklets,
      link.resolved = true ∧ link.confidence = 83/100 ∧ link.entity_type = .object) ∧
    ReIDResolver.resolvePersonLinks tracklets topology maxTravel =
      (groupKeys .person tracklets).map (fun lab =>
        mkPersonLink topology maxTravel lab (tracklets.filter (groupPred .person lab))) ∧
    (∀ (lab : String) (items : List Tracklet),
      List.Perm (sortListBy trkKeyLt items) items ∧
      List.Chain' (fun a b => trkKeyLt b a = false) (sortListBy trkKeyLt items) ∧
      ((mkPersonLink topology maxTravel lab items).resolved = true ↔
        List.Chain' (acceptPair topology maxTravel) (sortListBy trkKeyLt items)) ∧
      (mkPersonLink topology maxTravel lab items).confidence =
        (if (mkPersonLink topology maxTravel lab items).resolved = true
          then 87/100 else 46/100)) := by
  refine ⟨rfl, ?_, ?_, ?_, ?_⟩
  · unfold ReIDResolver.resolveObjectLinks
    rw [groupByLabel_eq_canon, groupCanon, List.map_map]
    rfl
  · intro link hlink
    unfold ReIDResolver.resolveObjectLinks at hlink
    obtain ⟨g, _, rfl⟩ := List.mem_map.mp hlink
    exact ⟨rfl, rfl, rfl⟩
  · unfold ReIDResolver.resolvePersonLinks
    rw [groupByLabel_eq_canon, groupCanon, List.map_map]
    rfl
  · intro lab items
    refine ⟨sortListBy_perm trkKeyLt items, sortListBy_chain' trkKeyLt trkKeyLt_asymm items,
      ?_, ?_⟩
    · show personWalk topology maxTravel (sortListBy trkKeyLt items) = true ↔ _
      exact personWalk_iff_chain' topology maxTravel (sortListBy trkKeyLt items)
    · have hres : (mkPersonLink topology maxTravel lab items).resolved =
        personWalk topology maxTravel (sortListBy trkKeyLt items) := rfl
      by_cases h : personWalk topology maxTravel (sortListBy trkKeyLt items) = true
      · simp [mkPersonLink, hres, h]
      · simp [mkPersonLink, hres, Bool.eq_false_iff.mpr h]

/-- Claim C1 witness: the adjacency fixture `camA → camB` with travel
budget `5` — the sorted pair `camA t∈[0,2]` then `camB t∈[50,52]` crosses
to a declared neighbor, so the person link stays resolved with
confidence `0.87`, and the single object tracklet yields a resolved
`0.83` link. -/
theorem claim_C1_witness :
    (mkPersonLink wTopo 5 "person_a" [wTrkPersonB, wTrkPerson]).resolved = true ∧
    (mkObjectLink "suv_x" [wTrkObject]).resolved = true ∧
    (mkObjectLink "suv_x" [wTrkObject]).confidence = 83/100 := by
  have h := claim_C1_resolver [wTrkPersonB, wTrkPerson] wTopo 5 (by decide)
  have h5 := (h.2.2.2.2 "person_a" [wTrkPersonB, wTrkPerson]).2.2.1
  have hs : sortListBy trkKeyLt [wTrkPersonB, wTrkPerson] = [wTrkPerson, wTrkPersonB] := by
    decide
  refine ⟨h5.mpr ?_, rfl, rfl⟩
  rw [hs]
  exact List.chain'_pair.mpr (by decide)

/-- Membership in `insertNodupBy intLt`. -/
theorem insertNodupInt_mem (x : Int) :
    ∀ (l : List Int) (y : Int), y ∈ insertNodupBy intLt x l ↔ y = x ∨ y ∈ l := by
  intro l
  induction l with
  | nil => intro y; simp [insertNodupBy]
  | cons z zs ih =>
    intro y
    unfold insertNodupBy
    by_cases h1 : intLt x z = true
    · rw [if_pos h1]
      simp only [List.mem_cons]
    · rw [if_neg h1]
      by_cases h2 : intLt z x = true
      · rw [if_pos h2]
        simp only [List.mem_cons, ih y]
        tauto
      · rw [if_neg h2]
        have hxz : x = z := by
          simp only [intLt, decide_eq_true_eq] at h1 h2
          omega
        simp only [List.mem_cons]
        constructor
        · exact fun h => Or.inr h
        · rintro (rfl | h)
          · exact Or.inl hxz
          · exact h

/-- Membership in `intRange`. -/
theorem mem_intRange (s e k : Int) : k ∈ intRange s e ↔ s ≤ k ∧ k ≤ e := by
  simp only [intRange, List.mem_map, List.mem_range, Int.ofNat_eq_coe]
  constructor
  · rintro ⟨i, hi, rfl⟩
    omega
  · rintro ⟨h1, h2⟩
    refine ⟨(k - s).toNat, by omega, by omega⟩

/-- `intRange` at a single point. -/
theorem intRange_single (e : Int) : intRange e e = [e] := by
  have h : (e + 1 - e).toNat = 1 := by omega
  have hr1 : List.range 1 = [0] := by decide
  rw [intRange, h, hr1, List.map_cons, List.map_nil]
  norm_num

/-- Extending `intRange` one step to the right. -/
theorem intRange_concat (s e : Int) (h : s ≤ e + 1) :
    intRange s (e + 1) = intRange s e ++ [e + 1] := by
  have hn : (e + 1 + 1 - s).toNat = (e + 1 - s).toNat + 1 := by omega
  have h2 : s + Int.ofNat (e + 1 - s).toNat = e + 1 := by
    simp only [Int.ofNat_eq_coe]
    omega
  rw [intRange, intRange, hn, List.range_succ, List.map_append, List.map_cons,
    List.map_nil, h2]

/-- Membership in the joined span cover. -/
theorem mem_spansJoin (spans : List (Int × Int)) (k : Int) :
    k ∈ spansJoin spans ↔ ∃ p ∈ spans, p.1 ≤ k ∧ k ≤ p.2 := by
  simp only [spansJoin, List.mem_flatten, List.mem_map]
  constructor
  · rintro ⟨l, ⟨p, hp, rfl⟩, hk⟩
    exact ⟨p, hp, (mem_intRange p.1 p.2 k).mp hk⟩
  · rintro ⟨p, hp, hk⟩
    exact ⟨intRange p.1 p.2, ⟨p, hp, rfl⟩, (mem_intRange p.1 p.2 k).mpr hk⟩

/-- `spansJoin` over a `cons`. -/
theorem spansJoin_cons (p : Int × Int) (spans : List (Int × Int)) :
    spansJoin (p :: spans) = intRange p.1 p.2 ++ spansJoin spans := rfl

/-- `spansJoin` over an appended last span. -/
theorem spansJoin_concat (spans : List (Int × Int)) (p : Int × Int) :
    spansJoin (spans ++ [p]) = spansJoin spans ++ intRange p.1 p.2 := by
  simp [spansJoin]

/-- Every span after `q` in a gap-separated span list starts strictly
after `q.2 + 1`. -/
theorem spanGap_lower (q : Int × Int) (rest : List (Int × Int)) :
    (∀ p ∈ rest, p.1 ≤ p.2) →
    List.Chain' (fun a b => a.2 + 1 < b.1) (q :: rest) →
    ∀ r ∈ rest, q.2 + 1 < r.1 := by
  induction rest generalizing q with
  | nil =>
    intro _ _ r hr
    exact absurd hr (List.not_mem_nil r)
  | cons r0 rs ih =>
    intro hle hch r hr
    have hq : q.2 + 1 < r0.1 := (List.chain'_cons.mp hch).1
    rcases List.mem_cons.mp hr with rfl | hr'
    · exact hq
    · have h0 : r0.1 ≤ r0.2 := hle r0 (List.mem_cons_self r0 rs)
      have h1 := ih r0 (fun p hp => hle p (List.mem_cons_of_mem _ hp))
        (List.chain'_cons.mp hch).2 r hr'
      omega

/-- In a gap-separated list of non-empty spans, every span is a maximal
run of the joined cover. -/
theorem spanListOK_maximal (spans : List (Int × Int)) :
    (∀ p ∈ spans, p.1 ≤ p.2) →
    List.Chain' (fun a b => a.2 + 1 < b.1) spans →
    ∀ p ∈ spans, isMaximalRun (spansJoin spans) p := by
  induction spans with
  | nil =>
    intro _ _ p hp
    exact absurd hp (List.not_mem_nil p)
  | cons q rest ih =>
    intro hle hch p hp
    have hqle : q.1 ≤ q.2 := hle q (List.mem_cons_self q rest)
    have hrle : ∀ p ∈ rest, p.1 ≤ p.2 := fun p hp => hle p (List.mem_cons_of_mem _ hp)
    have hrch : List.Chain' (fun a b => a.2 + 1 < b.1) rest := hch.tail
    have hgap : ∀ r ∈ rest, q.2 + 1 < r.1 := spanGap_lower q rest hrle hch
    rcases List.mem_cons.mp hp with rfl | hp'
    · refine ⟨hqle, ?_, ?_, ?_⟩
      · intro k h1 h2
        rw [spansJoin_cons, List.mem_append]
        exact Or.inl ((mem_intRange _ _ _).mpr ⟨h1, h2⟩)
      · rw [spansJoin_cons, List.mem_append]
        rintro (hin | hin)
        · have := (mem_intRange _ _ _).mp hin
          omega
        · obtain ⟨r, hr, hr1, _⟩ := (mem_spansJoin _ _).mp hin
          have := hgap r hr
          omega
      · rw [spansJoin_cons, List.mem_append]
        rintro (hin | hin)
        · have := (mem_intRange _ _ _).mp hin
          omega
        · obtain ⟨r, hr, hr1, _⟩ := (mem_spansJoin _ _).mp hin
          have := hgap r hr
          omega
    · obtain ⟨h1, h2, h3, h4⟩ := ih hrle hrch p hp'
      have hgp : q.2 + 1 < p.1 := hgap p hp'
      refine ⟨h1, ?_, ?_, ?_⟩
      · intro k hk1 hk2
        rw [spansJoin_cons, List.mem_append]
        exact Or.inr (h2 k hk1 hk2)
      · rw [spansJoin_cons, List.mem_append]
        rintro (hin | hin)
        · have := (mem_intRange _ _ _).mp hin
          omega
        · exact h3 hin
      · rw [spansJoin_cons, List.mem_append]
        rintro (hin | hin)
        · have := (mem_intRange _ _ _).mp hin
          omega
        · exact h4 hin

/-- The span builder covers exactly the pending run, the accumulator and
the remaining timestamps. -/
theorem contiguousSpansGo_join (rest : List Int) :
    ∀ (start e : Int) (acc : List (Int × Int)), start ≤ e →
      spansJoin (contiguousSpansGo rest start e acc) =
        spansJoin acc ++ intRange start e ++ rest := by
  induction rest with
  | nil =>
    intro start e acc h
    simp [contiguousSpansGo, spansJoin_concat]
  | cons v vs ih =>
    intro start e acc h
    by_cases hv : v = e + 1
    · simp only [contiguousSpansGo, if_pos hv]
      rw [ih start v acc (by omega)]
      subst hv
      rw [intRange_concat start e (by omega)]
      simp
    · simp only [contiguousSpansGo, if_neg hv]
      rw [ih v v (acc ++ [(start, e)]) le_rfl]
      rw [spansJoin_concat, intRange_single]
      simp

/-- The span builder keeps spans non-empty and gap-separated. -/
theorem contiguousSpansGo_ok (rest : List Int) :
    ∀ (start e : Int) (acc : List (Int × Int)),
      start ≤ e →
      List.Chain' (· < ·) (e :: rest) →
      (∀ p ∈ acc, p.1 ≤ p.2) →
      List.Chain' (fun a b => a.2 + 1 < b.1) acc →
      (∀ x ∈ acc.getLast?, x.2 + 1 < start) →
      (∀ p ∈ contiguousSpansGo rest start e acc, p.1 ≤ p.2) ∧
        List.Chain' (fun a b => a.2 + 1 < b.1) (contiguousSpansGo rest start e acc) := by
  induction rest with
  | nil =>
    intro start e acc hse _ hle hgap hlast
    constructor
    · intro p hp
      simp only [contiguousSpansGo] at hp
      rcases List.mem_append.mp hp with hp' | hp'
      · exact hle p hp'
      · rcases List.mem_singleton.mp hp' with rfl
        exact hse
    · simp only [contiguousSpansGo]
      rw [List.chain'_append]
      refine ⟨hgap, List.chain'_singleton _, ?_⟩
      intro x hx y hy
      simp only [List.head?_cons, Option.mem_some_iff] at hy
      subst hy
      exact hlast x hx
  | cons v vs ih =>
    intro start e acc hse hch hle hgap hlast
    have hev : e < v := (List.chain'_cons.mp hch).1
    have hch' : List.Chain' (· < ·) (v :: vs) := (List.chain'_cons.mp hch).2
    by_cases hv : v = e + 1
    · simp only [contiguousSpansGo, if_pos hv]
      exact ih start v acc (by omega) hch' hle hgap hlast
    · simp only [contiguousSpansGo, if_neg hv]
      refine ih v v (acc ++ [(start, e)]) le_rfl hch' ?_ ?_ ?_
      · intro p hp
        rcases List.mem_append.mp hp with hp' | hp'
        · exact hle p hp'
        · rcases List.mem_singleton.mp hp' with rfl
          exact hse
      · rw [List.chain'_append]
        refine ⟨hgap, List.chain'_singleton _, ?_⟩
        intro x hx y hy
        simp only [List.head?_cons, Option.mem_some_iff] at hy
        subst hy
        exact hlast x hx
      · intro x hx
        rw [List.getLast?_concat, Option.mem_some_iff] at hx
        subst hx
        show e + 1 < v
        omega

/-- `insertNodupBy intLt` preserves strict sortedness. -/
theorem insertNodupInt_pairwise (x : Int) :
    ∀ (l : List Int), List.Pairwise (· < ·) l →
      List.Pairwise (· < ·) (insertNodupBy intLt x l) := by
  intro l
  induction l with
  | nil =>
    intro _
    simp [insertNodupBy]
  | cons z zs ih =>
    intro hp
    rcases List.pairwise_cons.mp hp with ⟨hz, hzs⟩
    unfold insertNodupBy
    by_cases h1 : intLt x z = true
    · rw [if_pos h1]
      have hxz : x < z := by simpa [intLt] using h1
      refine List.pairwise_cons.mpr ⟨?_, hp⟩
      intro b hb
      rcases List.mem_cons.mp hb with rfl | hb'
      · exact hxz
      · exact lt_trans hxz (hz b hb')
    · rw [if_neg h1]
      by_cases h2 : intLt z x = true
      · rw [if_pos h2]
        have hzx : z < x := by simpa [intLt] using h2
        refine List.pairwise_cons.mpr ⟨?_, ih hzs⟩
        intro b hb
        rcases (insertNodupInt_mem x zs b).mp hb with rfl | hb'
        · exact hzx
        · exact hz b hb'
      · rw [if_neg h2]
        exact hp

/-- `sortedDedupInt` has the same members as its input. -/
theorem sortedDedupInt_mem (xs : List Int) (y : Int) :
    y ∈ sortedDedupInt xs ↔ y ∈ xs := by
  unfold sortedDedupInt sortedDedupBy
  induction xs with
  | nil => simp
  | cons x xs ih =>
    simp only [List.foldr_cons]
    rw [insertNodupInt_mem x _ y, ih, List.mem_cons]

/-- `sortedDedupInt` is strictly ascending. -/
theorem sortedDedupInt_pairwise (xs : List Int) :
    List.Pairwise (· < ·) (sortedDedupInt xs) := by
  unfold sortedDedupInt sortedDedupBy
  induction xs with
  | nil => simp
  | cons x xs ih => exact insertNodupInt_pairwise x _ ih

/-- `contiguousSpans` produces exactly maximal integer-adjacent runs
covering the timestamp set. -/
theorem contiguousSpans_spec (ts : List Int) :
    (∀ p ∈ contiguousSpans ts, isMaximalRun ts p) ∧
      (∀ k : Int, k ∈ ts → ∃ p ∈ contiguousSpans ts, p.1 ≤ k ∧ k ≤ p.2) := by
  rcases hsd : sortedDedupInt ts with _ | ⟨t, rest⟩
  · constructor
    · intro p hp
      simp only [contiguousSpans, hsd] at hp
      exact absurd hp (List.not_mem_nil p)
    · intro k hk
      have h := (sortedDedupInt_mem ts k).mpr hk
      rw [hsd] at h
      exact absurd h (List.not_mem_nil k)
  · have hpw : List.Pairwise (· < ·) (t :: rest) := hsd ▸ sortedDedupInt_pairwise ts
    have hch : List.Chain' (· < ·) (t :: rest) := List.chain'_iff_pairwise.mpr hpw
    have hgo : contiguousSpans ts = contiguousSpansGo rest t t [] := by
      simp only [contiguousSpans, hsd]
    have hok := contiguousSpansGo_ok rest t t [] le_rfl hch
      (fun p hp => absurd hp (List.not_mem_nil p))
      List.chain'_nil
      (fun x hx => by simp at hx)
    have hjoin : spansJoin (contiguousSpansGo rest t t []) = t :: rest := by
      rw [contiguousSpansGo_join rest t t [] le_rfl]
      simp [spansJoin, intRange_single]
    have hmem : ∀ k : Int, k ∈ spansJoin (contiguousSpansGo rest t t []) ↔ k ∈ ts := by
      intro k
      rw [hjoin, ← hsd, sortedDedupInt_mem]
    constructor
    · intro p hp
      rw [hgo] at hp
      obtain ⟨h1, h2, h3, h4⟩ := spanListOK_maximal _ hok.1 hok.2 p hp
      exact ⟨h1, fun k hk1 hk2 => (hmem k).mp (h2 k hk1 hk2),
        fun hc => h3 ((hmem _).mpr hc), fun hc => h4 ((hmem _).mpr hc)⟩
    · intro k hk
      have h := (hmem k).mpr hk
      obtain ⟨p, hp, h1, h2⟩ := (mem_spansJoin _ _).mp h
      exact ⟨p, by rw [hgo]; exact hp, h1, h2⟩

/-- Claim C7: for every clip routed to a route other than `meta_sync`,
stage 1 flags a frame's timestamp meaningful exactly when the frame has
semantic tokens (and additionally, for the `bg_motion_trigger` route,
background motion above `0.4`), and the clip's active windows are exactly
the contiguous spans of the meaningful timestamps tagged
`activity_detected`, where every such span is a maximal integer-adjacent
run of the meaningful timestamp set and the spans jointly cover every
meaningful timestamp. -/
theorem claim_C7_active_windows (clip : Clip) (route : RouteId)
    (hroute : route ≠ RouteId.meta_sync) :
    TriggerRouter.extract_active_windows clip route =
      (contiguousSpans (meaningfulTimestamps clip route)).map
        (fun p => (p.1, p.2, "activity_detected")) ∧
    (∀ f : FrameObservation,
      frameMeaningful route f =
        (hasSemanticSignal f &&
          (decide (route ≠ RouteId.bg_motion_trigger) ||
            decide ((4 : ℚ)/10 < f.background_motion)))) ∧
    (∀ p ∈ contiguousSpans (meaningfulTimestamps clip route),
        isMaximalRun (meaningfulTimestamps clip route) p) ∧
    (∀ k : Int, k ∈ meaningfulTimestamps clip route →
        ∃ p ∈ contiguousSpans (meaningfulTimestamps clip route), p.1 ≤ k ∧ k ≤ p.2) := by
  refine ⟨?_, ?_, (contiguousSpans_spec _).1, (contiguousSpans_spec _).2⟩
  · simp only [TriggerRouter.extract_active_windows]
    rw [if_neg hroute]
  · intro f
    by_cases hbg : route = RouteId.bg_motion_trigger
    · subst hbg
      simp [frameMeaningful]
    · simp [frameMeaningful, hbg]

/-- Claim C7 witness: on a concrete `cv_state` clip with meaningful
timestamps `1, 2, 5`, the active windows are the two maximal runs
`(1, 2)` and `(5, 5)`, `(1, 2)` is a maximal run, and the non-meaningful
timestamps `0` and `3` are excluded. -/
theorem claim_C7_witness :
    TriggerRouter.extract_active_windows wClipC7 RouteId.cv_state =
      [(1, 2, "activity_detected"), (5, 5, "activity_detected")] ∧
    contiguousSpans (meaningfulTimestamps wClipC7 RouteId.cv_state) = [(1, 2), (5, 5)] ∧
    isMaximalRun (meaningfulTimestamps wClipC7 RouteId.cv_state) (1, 2) ∧
    (0 : Int) ∉ meaningfulTimestamps wClipC7 RouteId.cv_state ∧
    (3 : Int) ∉ meaningfulTimestamps wClipC7 RouteId.cv_state := by
  have h := claim_C7_active_windows wClipC7 RouteId.cv_state (by decide)
  refine ⟨?_, by decide, ?_, by decide, by decide⟩
  · rw [h.1]
    decide
  · exact h.2.2.1 (1, 2) (by decide)

/-- A fold whose step never changes the accumulator returns its seed. -/
theorem foldl_congr_fixed {α β : Type} (f : β → α → β) (h : ∀ acc x, f acc x = acc) :
    ∀ (l : List α) (init : β), l.foldl f init = init := by
  intro l
  induction l with
  | nil => intro init; rfl
  | cons x xs ih =>
    intro init
    rw [List.foldl_cons, h]
    exact ih init

/-- With an empty window dictionary, `scoreWindows` scores nothing and
leaves the stores untouched, for any candidate list. -/
theorem scoreWindows_no_windows (ports : Ports) (request : QueryRequest)
    (cids : List String) (q : String) (qt : List String) (qe : List ℚ)
    (st : PipelineStores) :
    scoreWindows ports request cids [] q qt qe st = ([], st) := by
  simp only [scoreWindows, assocGet, List.find?_nil, Option.map_none']
  rw [foldl_congr_fixed _ (fun _ _ => rfl)]
  rfl

/-- The sub-query rescoring fold with constantly empty rescored lists. -/
theorem subScoredFoldNil (subs : List String) :
    ∀ (acc : List (List ValidatedWindow) × PipelineStores),
      subs.foldl (fun acc (_ : String) => (acc.1 ++ [([] : List ValidatedWindow)], acc.2)) acc =
        (acc.1 ++ subs.map fun _ => [], acc.2) := by
  induction subs with
  | nil => intro acc; simp
  | cons s ss ih =>
    intro acc
    rw [List.foldl_cons, ih]
    simp

/-- A sub-query step with an empty rescored list changes nothing. -/
theorem stage2SubStep_nil (t : ℚ) (v : List ValidatedWindow) :
    stage2SubStep t v [] = v := by
  simp [stage2SubStep]

/-- Folding sub-query steps over only-empty rescored lists changes
nothing. -/
theorem foldl_subStep_all_nil (t : ℚ) :
    ∀ (subs : List (List ValidatedWindow)), (∀ l ∈ subs, l = []) →
      ∀ v, subs.foldl (stage2SubStep t) v = v := by
  intro subs
  induction subs with
  | nil => intro _ v; rfl
  | cons s ss ih =>
    intro h v
    rw [List.foldl_cons, h s (List.mem_cons_self s ss), stage2SubStep_nil]
    exact ih (fun l hl => h l (List.mem_cons_of_mem _ hl)) v

/-- With no scored candidates and only-empty sub-query rescorings the
stage-2 selection is empty. -/
theorem stage2SelectFrom_nil (thr : ℚ) (topk : Nat)
    (subs : List (List ValidatedWindow)) (h : ∀ l ∈ subs, l = []) :
    stage2SelectFrom thr topk [] subs = [] := by
  have hv : stage2Validated thr [] subs = [] := by
    simp only [stage2Validated, List.filter_nil]
    rw [foldl_subStep_all_nil thr subs h]
    simp
  simp only [stage2SelectFrom, hv]
  show List.take topk (fillGo topk [] (diversityGo topk [] [] [])) = []
  exact List.take_nil

/-- Stage 2 with no active windows validates nothing (for any request and
warm stores). -/
theorem stage2TemporalRetrieval_no_windows (ports : Ports) (cfg : RuntimeConfig)
    (request : QueryRequest) (st : PipelineStores) :
    ∃ st2, stage2TemporalRetrieval ports cfg request [] st = ([], st2) := by
  simp only [stage2TemporalRetrieval, List.reverse_nil, List.map_nil]
  simp only [scoreWindows_no_windows]
  rw [subScoredFoldNil]
  refine ⟨st, ?_⟩
  rw [stage2SelectFrom_nil]
  intro l hl
  simp only [List.nil_append, List.mem_map] at hl
  obtain ⟨a, _, hla⟩ := hl
  exact hla.symm

/-- Claim C8: a `QueryRequest` with an empty clip list yields a successful
run (whenever the configured required state keys validate) with zero
active windows, zero validated windows, zero tracklets, a synthesis output
with zero claims, and the fixed conservative insufficient-evidence
summary. -/
theorem claim_C8_empty_request (cfg : RuntimeConfig) (ports : Ports)
    (qid qtext : String) (topo : List (String × List String)) (st : PipelineStores)
    (hval : validateStateSnapshot cfg.required_state_keys = true) :
    ∃ result stOut,
      AgenticVideoRAGEngine.run cfg ports ⟨qid, qtext, [], topo⟩ st =
        .ok (result, stOut) ∧
      result.active_windows = [] ∧
      result.validated_windows = [] ∧
      result.tracklets = [] ∧
      result.synthesis.claims = [] ∧
      result.synthesis.summary = insufficientEvidenceSummary := by
  obtain ⟨st2, h2⟩ := stage2TemporalRetrieval_no_windows ports cfg ⟨qid, qtext, [], topo⟩ st
  have h1 : stage1ActivityIngestion ports ⟨qid, qtext, [], topo⟩ st = ([], st) := rfl
  have h3 : stage3SpatialGrounding cfg ⟨qid, qtext, [], topo⟩ [] st2 = ([], st2) := rfl
  have h4 : stage4EntityResolution cfg ⟨qid, qtext, [], topo⟩ [] = [] := rfl
  have h5 : stage5TemporalLocalization cfg ⟨qid, qtext, [], topo⟩ [] = [] := rfl
  have h6 : stage6GraphMemory cfg.spec_version st2.frame_index [] [] []
      st2.graph_nodes st2.graph_edges st2.evidence_registry =
      ((st2.graph_nodes.map (·.2), []),
        (st2.graph_nodes, st2.graph_edges, st2.evidence_registry)) := rfl
  have hsynth : MultimodalSynthesizerAdapter.synthesize qtext (stage7Claims []) =
      ⟨insufficientEvidenceSummary, [], [], 0⟩ := rfl
  simp only [AgenticVideoRAGEngine.run, h1, h2, h3, h4, h5, h6, hsynth, hval]
  exact ⟨_, _, rfl, rfl, rfl, rfl, rfl, rfl⟩

/-- Claim C8 witness: the empty-clip request on the demo configuration
succeeds with empty stage outputs and the conservative summary. -/
theorem claim_C8_witness :
    validateStateSnapshot demoCfg.required_state_keys = true ∧
    ∃ result stOut,
      AgenticVideoRAGEngine.run demoCfg demoPorts ⟨"qe", "find a person", [], []⟩
          emptyStores =
        .ok (result, stOut) ∧
      result.active_windows = [] ∧
      result.validated_windows = [] ∧
      result.tracklets = [] ∧
      result.synthesis.claims = [] ∧
      result.synthesis.summary = insufficientEvidenceSummary :=
  ⟨by decide,
    claim_C8_empty_request demoCfg demoPorts "qe" "find a person" [] emptyStores (by decide)⟩
